import Mathlib

/-!
# Verification of optillm-rs strategy core

Shallow embedding of the optillm-rs repository (Rust) in Lean 4, together
with proofs and refutations of the frozen specification claims.

Modelling conventions, used throughout:

* Rust `f32` values are modelled as exact rationals (`ℚ`).  Every claim
  settled here depends only on orderings and exact arithmetic identities
  that are insensitive to `f32` rounding at the inputs involved; the two
  transcendental operations reached by the MCTS engine (`ln`, `sqrt`) are
  taken as explicit function parameters of the embedding.
* Rust `usize` is modelled as `Nat` (no claim exercises overflow).
* Rust `String` is modelled as Lean `String`; `str::len` (bytes) is
  modelled as character count, `to_lowercase` / `is_whitespace` as their
  per-character ASCII counterparts — all strings appearing in the claims
  are ASCII.
* A streaming backend (`dyn ModelClient`) is modelled as an oracle
  assigning to each successive call the finite list of items the stream
  yields.  Randomness (`rand::thread_rng`) is modelled as an oracle of
  naturals consumed in call order.
-/

namespace OptRs

/-! ## optillm_core data types (src/crates/core/src/client.rs) -/

/-- `TokenUsage` from `optillm_core`: input and output token counts. -/
structure TokenUsage where
  input_tokens : Nat
  output_tokens : Nat
deriving Repr, DecidableEq

/-- `TokenUsage::total_tokens`: `input_tokens + output_tokens`. -/
def TokenUsage.total_tokens (u : TokenUsage) : Nat :=
  u.input_tokens + u.output_tokens

/-- `ResponseEvent` from `optillm_core`: a streaming delta or the
terminal completion event carrying optional usage. -/
inductive REvent where
  | outputTextDelta (delta : String)
  | completed (token_usage : Option TokenUsage)
deriving Repr, DecidableEq

/-- One item of a backend stream: `Result<ResponseEvent>`. -/
abbrev EvItem := Except String REvent

/-- Sum of `usage.total_tokens()` over all `Completed` events of a stream
that carry a usage record (events without usage contribute nothing). -/
def usageSum : List EvItem → Nat
  | [] => 0
  | .ok (.completed (some u)) :: rest => u.total_tokens + usageSum rest
  | .ok (.completed none) :: rest => usageSum rest
  | .ok (.outputTextDelta _) :: rest => usageSum rest
  | .error _ :: rest => usageSum rest

/-! ## The MARS `Solution` record

The module `crate::types` of the `optillm-mars` crate is declared in
`src/crates/mars/src/lib.rs` but its file is not present in the sources;
the record below is reconstructed from the specification (§3) and from
every field access made by the present sources.  The source constructor
`Solution::new(agent_id, reasoning, answer, temperature, token_count)`
draws a fresh UUID for `id`; the embedding makes `id` deterministic —
no claim below depends on the value of a generated `id`. -/

structure Solution where
  id : String
  agent_id : String
  reasoning : String
  answer : String
  temperature : ℚ
  token_count : Nat
  verification_score : ℚ
  verification_passes : Nat
  verification_failures : Nat
  is_verified : Bool
deriving Repr, DecidableEq

instance : Inhabited Solution :=
  ⟨⟨"", "", "", "", 0, 0, 0, 0, 0, false⟩⟩

/-- `Solution::new`: fresh record with zeroed verification state. -/
def Solution.new (agentId reasoning answer : String) (temperature : ℚ)
    (tokenCount : Nat) : Solution :=
  { id := "solution-" ++ agentId
    agent_id := agentId
    reasoning := reasoning
    answer := answer
    temperature := temperature
    token_count := tokenCount
    verification_score := 0
    verification_passes := 0
    verification_failures := 0
    is_verified := false }

/-- Modelled from the spec: `Solution::add_verification_pass` lives in the
missing `crate::types` module.  Spec §3: the score is the iterated mean
`(old + s) / 2`, the pass counter increments, and `is_verified` is the
derived flag `passes ≥ consensus_threshold ∧ failures = 0` with the
default threshold 2 (glossary; confirmed by the workspace and verifier
tests in the sources). -/
def Solution.add_verification_pass (s : Solution) (score : ℚ) : Solution :=
  let passes := s.verification_passes + 1
  { s with
    verification_score := (s.verification_score + score) / 2
    verification_passes := passes
    is_verified := decide (2 ≤ passes ∧ s.verification_failures = 0) }

/-- Modelled from the spec: `Solution::add_verification_failure` from the
missing `crate::types` module.  Spec §3: the failure counter increments
and `is_verified` becomes (and stays) false. -/
def Solution.add_verification_failure (s : Solution) : Solution :=
  { s with
    verification_failures := s.verification_failures + 1
    is_verified := false }

/-! ## Best-of-N selection (src/crates/mars/src/strategies/best_of_n/mod.rs) -/

/-- `SelectionMethod` for Best-of-N. -/
inductive SelectionMethod where
  | bestScore
  | highestConfidence
  | mostThorough
  | mostConcise
  | multiCriteria
deriving Repr, DecidableEq

/-- Loop body of `select_by_score`: running first-maximum of
`verification_score` (strict `>` keeps the earlier index on ties). -/
def selectByScoreGo : List Solution → Nat → Nat → ℚ → Nat × ℚ
  | [], _, bi, bs => (bi, bs)
  | s :: rest, i, bi, bs =>
    if bs < s.verification_score then
      selectByScoreGo rest (i + 1) i s.verification_score
    else
      selectByScoreGo rest (i + 1) bi bs

/-- `BestOfNAggregator::select_by_score`: index and value of the first
highest `verification_score` (iteration starts at index 1 with the
head as the initial best). -/
def selectByScore : List Solution → Nat × ℚ
  | [] => (0, 0)
  | s0 :: rest => selectByScoreGo rest 1 0 s0.verification_score

/-- The confidence heuristic of `select_by_confidence`:
`verification_score * 0.6 + min(len(reasoning)/1000, 1) * 0.4`. -/
def confidenceOf (s : Solution) : ℚ :=
  s.verification_score * (6/10) +
    (min ((s.reasoning.length : ℚ) / 1000) 1) * (4/10)

/-- Loop body of `select_by_confidence` (initial best score `0.0`,
iteration over all indices, strict `>`). -/
def selectByConfidenceGo : List Solution → Nat → Nat → ℚ → Nat × ℚ
  | [], _, bi, bs => (bi, bs)
  | s :: rest, i, bi, bs =>
    if bs < confidenceOf s then
      selectByConfidenceGo rest (i + 1) i (confidenceOf s)
    else
      selectByConfidenceGo rest (i + 1) bi bs

/-- `BestOfNAggregator::select_by_confidence`. -/
def selectByConfidence (sols : List Solution) : Nat × ℚ :=
  selectByConfidenceGo sols 0 0 0

/-- Loop body of `select_by_thoroughness`: running first-maximum of
reasoning length. -/
def selectByThoroughnessGo : List Solution → Nat → Nat → Nat → Nat × Nat
  | [], _, bi, bl => (bi, bl)
  | s :: rest, i, bi, bl =>
    if bl < s.reasoning.length then
      selectByThoroughnessGo rest (i + 1) i s.reasoning.length
    else
      selectByThoroughnessGo rest (i + 1) bi bl

/-- `BestOfNAggregator::select_by_thoroughness`: first longest reasoning;
selection score `min(max_length/2000, 1)`. -/
def selectByThoroughness : List Solution → Nat × ℚ
  | [] => (0, 0)
  | s0 :: rest =>
    let (bi, bl) := selectByThoroughnessGo rest 1 0 s0.reasoning.length
    (bi, min ((bl : ℚ) / 2000) 1)

/-- Loop body of `select_by_conciseness`: running first-minimum of answer
length (strict `<` keeps the earlier index on ties). -/
def selectByConcisenessGo : List Solution → Nat → Nat → Nat → Nat × Nat
  | [], _, bi, bl => (bi, bl)
  | s :: rest, i, bi, bl =>
    if s.answer.length < bl then
      selectByConcisenessGo rest (i + 1) i s.answer.length
    else
      selectByConcisenessGo rest (i + 1) bi bl

/-- `BestOfNAggregator::select_by_conciseness`: first shortest answer;
selection score `max(1 - min(min_length/500, 1), 0)`. -/
def selectByConciseness : List Solution → Nat × ℚ
  | [] => (0, 0)
  | s0 :: rest =>
    let (bi, bl) := selectByConcisenessGo rest 1 0 s0.answer.length
    (bi, max (1 - min ((bl : ℚ) / 500) 1) 0)

/-- Rust `usize::MAX`, the initial accumulator of the minimum-answer-length
fold in `select_by_multi_criteria`. -/
def usizeMax : Nat := 2 ^ 64 - 1

/-- The per-candidate scores computed by `select_by_multi_criteria`:
40% normalized verification score, 30% normalized reasoning length,
20% inverted answer length, 10% temperature diversity. -/
def multiScores (sols : List Solution) : List ℚ :=
  let maxVerification : ℚ :=
    sols.foldl (fun acc s => max acc s.verification_score) 0
  let scores1 : List ℚ :=
    if 0 < maxVerification then
      sols.map (fun s => s.verification_score / maxVerification * (4/10))
    else
      sols.map (fun _ => 0)
  let maxReasoning : Nat :=
    sols.foldl (fun acc s => max acc s.reasoning.length) 0
  let scores2 : List ℚ :=
    if 0 < maxReasoning then
      (scores1.zip sols).map
        (fun p => p.1 + (p.2.reasoning.length : ℚ) / (maxReasoning : ℚ) * (3/10))
    else
      scores1
  let minAnswer : Nat :=
    sols.foldl (fun acc s => min acc s.answer.length) usizeMax
  let scores3 : List ℚ :=
    if 0 < minAnswer then
      (scores2.zip sols).map
        (fun p =>
          p.1 + (min ((minAnswer : ℚ) / (p.2.answer.length : ℚ)) 1) * (2/10))
    else
      scores2
  let avgTemp : ℚ :=
    (sols.foldl (fun acc s => acc + s.temperature) 0) / (sols.length : ℚ)
  (scores3.zip sols).map
    (fun p => p.1 + (1 - min (|p.2.temperature - avgTemp| / 1) 1) * (1/10))

/-- Rust `Iterator::max_by` with a total comparison on the second
component: when several elements compare equal and maximal, the LAST of
them is returned (`std::cmp::max_by` keeps the right argument unless it
is strictly smaller). -/
def maxByLast : List (Nat × ℚ) → Option (Nat × ℚ)
  | [] => none
  | x :: rest =>
    some (rest.foldl (fun acc y => if acc.2 ≤ y.2 then y else acc) x)

/-- `BestOfNAggregator::select_by_multi_criteria`. -/
def selectByMultiCriteria (sols : List Solution) : Nat × ℚ :=
  let scores := multiScores sols
  let bi := ((maxByLast scores.enum).map Prod.fst).getD 0
  (bi, scores.getD bi 0)

/-- Index and selection score chosen by the given method (the `match` of
`select_best_solution`). -/
def selectIdxScore (sols : List Solution) : SelectionMethod → Nat × ℚ
  | .bestScore => selectByScore sols
  | .highestConfidence => selectByConfidence sols
  | .mostThorough => selectByThoroughness sols
  | .mostConcise => selectByConciseness sols
  | .multiCriteria => selectByMultiCriteria sols

/-- `BestOfNAggregator::select_best_solution`: errors on an empty
candidate list, otherwise clones the chosen candidate with its
`verification_score` overwritten by the selection score. -/
def selectBestSolution (sols : List Solution) (method : SelectionMethod) :
    Except String (Solution × ℚ) :=
  match sols with
  | [] => .error "No solutions to select from"
  | _ :: _ =>
    let p := selectIdxScore sols method
    .ok ({ sols.getD p.1 default with verification_score := p.2 }, p.2)

/-! ## AutoThink complexity scoring (src/crates/mars/src/strategies/autothink/mod.rs) -/

/-- `AutoThinkConfig` (temperature fields; the token thresholds are not
read by the scoring code). -/
structure AutoThinkConfig where
  simple_token_threshold : Nat := 50
  complex_token_threshold : Nat := 150
  simple_temperature : ℚ := 3/10
  medium_temperature : ℚ := 6/10
  complex_temperature : ℚ := 1
deriving Repr, DecidableEq

/-- `ComplexityLevel`. -/
inductive ComplexityLevel where
  | simple
  | medium
  | complex
deriving Repr, DecidableEq

/-- Contiguous-sublist test on character lists. -/
def charsInfix (pat : List Char) : List Char → Bool
  | [] => decide (pat = [])
  | c :: rest => pat.isPrefixOf (c :: rest) || charsInfix pat rest

/-- Substring test, modelling Rust `str::contains`. -/
def strContains (hay pat : String) : Bool :=
  charsInfix pat.data hay.data

/-- Rust `str::trim`: strip whitespace from both ends (structural
implementation on the character list). -/
def trimChars (cs : List Char) : List Char :=
  ((cs.dropWhile Char.isWhitespace).reverse.dropWhile
    Char.isWhitespace).reverse

/-- `str::trim` on strings. -/
def strTrim (s : String) : String :=
  String.mk (trimChars s.data)

/-- Rust `str::to_lowercase`, per character (adequate for ASCII). -/
def strToLower (s : String) : String :=
  String.mk (s.data.map Char.toLower)

/-- Maximal non-whitespace runs of a character list (the accumulator
holds the current word reversed). -/
def wordsAux : List Char → List Char → List (List Char)
  | [], acc => if acc.isEmpty then [] else [acc.reverse]
  | c :: rest, acc =>
    if c.isWhitespace then
      if acc.isEmpty then wordsAux rest []
      else acc.reverse :: wordsAux rest []
    else wordsAux rest (c :: acc)

/-- Split a character list at every occurrence of a separator character,
keeping empty segments — the semantics of Rust `str::split(char)`. -/
def splitOnChar (sep : Char) : List Char → List (List Char)
  | [] => [[]]
  | c :: rest =>
    if c = sep then [] :: splitOnChar sep rest
    else
      match splitOnChar sep rest with
      | [] => [[c]]
      | l :: ls => (c :: l) :: ls

/-- Rust `str::split_whitespace`: maximal non-whitespace runs. -/
def splitWhitespace (s : String) : List String :=
  (wordsAux s.data []).map String.mk

/-- Number of occurrences of a character, modelling
`str::matches(c).count()`. -/
def countChar (s : String) (c : Char) : Nat :=
  s.data.count c

/-- Rust `f32::clamp(lo, hi)`. -/
def qclamp (x lo hi : ℚ) : ℚ :=
  min (max x lo) hi

/-- `analyze_length`: bucketed word count. -/
def analyzeLength (words : List String) : ℚ :=
  let n := words.length
  if n ≤ 10 then 0
  else if n ≤ 30 then 2/10
  else if n ≤ 70 then 5/10
  else if n ≤ 150 then 75/100
  else 1

/-- The fixed advanced-vocabulary list of `analyze_vocabulary`. -/
def advancedWords : List String :=
  ["theorem", "hypothesis", "methodology", "optimally", "recursively",
   "semantics", "pragmatics", "heuristic", "parameter", "architecture",
   "sophisticated", "intricate", "elaborate", "comprehensive", "rigorous"]

/-- The fixed jargon list of `analyze_vocabulary`. -/
def jargonWords : List String :=
  ["matrix", "vector", "integral", "derivative", "probability",
   "algorithm", "data structure", "optimization", "neural", "tensor"]

/-- The average-word-length bucket of `analyze_vocabulary`.  The Rust
code matches `f32` range patterns `0.0..=4.0 | 4.1..=6.0 | 6.1..=8.0 |
8.1..=10.0 | _`; values inside a gap such as `(4.0, 4.1)` fall through
to the wildcard arm `0.8`, and the embedding keeps those gaps. -/
def wordLengthScore (x : ℚ) : ℚ :=
  if 0 ≤ x ∧ x ≤ 4 then 0
  else if 41/10 ≤ x ∧ x ≤ 6 then 2/10
  else if 61/10 ≤ x ∧ x ≤ 8 then 4/10
  else if 81/10 ≤ x ∧ x ≤ 10 then 6/10
  else 8/10

/-- `analyze_vocabulary`. -/
def analyzeVocabulary (queryLower : String) (words : List String) : ℚ :=
  let advancedCount : Nat :=
    (advancedWords.filter (fun w => strContains queryLower w)).length
  let v1 : ℚ := min ((advancedCount : ℚ) / 15 * (4/10)) (4/10)
  let avgWordLen : ℚ :=
    ((words.foldl (fun acc w => acc + w.length) 0 : Nat) : ℚ) /
      ((max words.length 1 : Nat) : ℚ)
  let v2 : ℚ := wordLengthScore avgWordLen * (3/10)
  let jargonCount : Nat :=
    (jargonWords.filter (fun w => strContains queryLower w)).length
  let v3 : ℚ := min ((jargonCount : ℚ) / 10 * (3/10)) (3/10)
  min (v1 + v2 + v3) 1

/-- The weighted reasoning-keyword table of `analyze_reasoning_keywords`. -/
def reasoningIndicators : List (String × ℚ) :=
  [("prove", 1), ("derive", 1), ("demonstrate", 9/10), ("explain", 7/10),
   ("analyze", 8/10), ("evaluate", 8/10), ("compare", 7/10),
   ("design", 9/10), ("implement", 8/10), ("optimize", 9/10),
   ("complex", 7/10), ("difficult", 8/10), ("challenging", 7/10),
   ("compute", 8/10), ("solve", 6/10), ("recursive", 95/100),
   ("algorithm", 9/10), ("edge case", 85/100), ("corner case", 85/100),
   ("formula", 7/10), ("theory", 8/10), ("abstract", 9/10),
   ("contradiction", 9/10), ("infinite", 9/10)]

/-- `analyze_reasoning_keywords`: max matched weight (70%) plus a match
count bonus capped at 0.3 (30%), capped at 1. -/
def analyzeReasoningKeywords (queryLower : String) : ℚ :=
  let matched := reasoningIndicators.filter
    (fun kw => strContains queryLower kw.1)
  let maxScore : ℚ := matched.foldl (fun acc kw => max acc kw.2) 0
  let matchCount : Nat := matched.length
  let countBonus : ℚ := min ((matchCount : ℚ) / 24 * (3/10)) (3/10)
  min (maxScore * (7/10) + countBonus) 1

/-- `analyze_domain_indicators`: additive domain buckets, capped at 1. -/
def analyzeDomainIndicators (queryLower : String) : ℚ :=
  let mathKeywords := ["calculus", "algebra", "geometry", "topology",
    "group theory", "number theory"]
  let progKeywords := ["algorithm", "data structure", "dynamic programming",
    "sorting", "searching"]
  let scienceKeywords := ["quantum", "relativity", "thermodynamics",
    "mechanics", "electromagnetism"]
  let logicKeywords := ["logic", "inference", "proof", "axiom",
    "proposition", "theorem"]
  let mathCount := (mathKeywords.filter (fun w => strContains queryLower w)).length
  let progCount := (progKeywords.filter (fun w => strContains queryLower w)).length
  let sciCount := (scienceKeywords.filter (fun w => strContains queryLower w)).length
  let logicCount := (logicKeywords.filter (fun w => strContains queryLower w)).length
  let s1 : ℚ := if 0 < mathCount then 8/10 else 0
  let s2 : ℚ := if 1 < progCount then 7/10 else 0
  let s3 : ℚ := if 0 < sciCount then 9/10 else 0
  let s4 : ℚ := if 0 < logicCount then 85/100 else 0
  min (s1 + s2 + s3 + s4) 1

/-- The average-sentence-length bucket of `analyze_structure`, with the
same `f32` range-pattern gaps as `wordLengthScore`. -/
def sentenceLengthScore (x : ℚ) : ℚ :=
  if 0 ≤ x ∧ x ≤ 10 then 0
  else if 101/10 ≤ x ∧ x ≤ 20 then 15/100
  else if 201/10 ≤ x ∧ x ≤ 35 then 3/10
  else 4/10

/-- `analyze_structure`: question marks, nesting characters, separators
and average sentence length (the original query keeps its case here;
only the word list is lowercased). -/
def analyzeStructure (query : String) (words : List String) : ℚ :=
  let questionMarks := countChar query '?'
  let multiQuestionScore := qclamp (((questionMarks : ℚ) - 1) / 5) 0 (3/10)
  let parens := countChar query '(' + countChar query ')'
  let brackets := countChar query '[' + countChar query ']'
  let nestingScore := qclamp (((parens + brackets : Nat) : ℚ) / 20) 0 (3/10)
  let colons := countChar query ':'
  let semis := countChar query ';'
  let separatorScore := qclamp (((colons + semis : Nat) : ℚ) / 10) 0 (2/10)
  let sentences := splitOnChar '.' query.data
  let avgSentenceLen : ℚ :=
    if sentences.length ≠ 0 then
      (words.length : ℚ) / (sentences.length : ℚ)
    else 0
  let sentenceScore := sentenceLengthScore avgSentenceLen
  min (multiQuestionScore + nestingScore + separatorScore + sentenceScore) 1

/-- `AutoThinkOptimizer::calculate_complexity_score`: weighted sum of the
five factors (weights 0.20 / 0.25 / 0.25 / 0.15 / 0.15), capped at 1. -/
def calculateComplexityScore (query : String) : ℚ :=
  let queryLower := strToLower query
  let words := splitWhitespace queryLower
  let s :=
    analyzeLength words * (2/10) +
    analyzeVocabulary queryLower words * (25/100) +
    analyzeReasoningKeywords queryLower * (25/100) +
    analyzeDomainIndicators queryLower * (15/100) +
    analyzeStructure query words * (15/100)
  min s 1

/-- `AutoThinkOptimizer::classify_complexity`: score `< 0.25` is Simple,
`< 0.40` Medium, otherwise Complex. -/
def classifyComplexity (query : String) : ComplexityLevel :=
  let score := calculateComplexityScore query
  if score < 1/4 then .simple
  else if score < 2/5 then .medium
  else .complex

/-- `AutoThinkOptimizer::get_temperature`. -/
def getTemperature (cfg : AutoThinkConfig) : ComplexityLevel → ℚ
  | .simple => cfg.simple_temperature
  | .medium => cfg.medium_temperature
  | .complex => cfg.complex_temperature

/-! ## Best-of-N run (src/crates/mars/src/strategies/best_of_n/mod.rs)

The backend (`dyn ModelClient`) is modelled as an oracle `streams`
assigning to each call index the finite item list its stream yields;
prompt construction (which only feeds the backend) is elided. -/

/-- Position of the first occurrence of `pat` (as a contiguous sublist),
modelling Rust `str::find`. -/
def findSubAux (pat : List Char) : List Char → Nat → Option Nat
  | [], i => if pat = [] then some i else none
  | c :: rest, i =>
    if pat.isPrefixOf (c :: rest) then some i
    else findSubAux pat rest (i + 1)

/-- `str::find` on strings (positions counted in characters; all strings
reached by the claims are ASCII, where this agrees with byte offsets). -/
def strFind (hay pat : String) : Option Nat :=
  findSubAux pat.data hay.data 0

/-- Position of the last occurrence of a character, modelling
`str::rfind(char)`. -/
def rfindCharAux (c : Char) : List Char → Nat → Option Nat → Option Nat
  | [], _, acc => acc
  | x :: rest, i, acc =>
    rfindCharAux c rest (i + 1) (if x = c then some i else acc)

/-- `str::rfind(char)`. -/
def rfindChar (s : String) (c : Char) : Option Nat :=
  rfindCharAux c s.data 0 none

/-- The separator array of `BestOfNAggregator::parse_response`, in source
order (`"Answer:"` is tried before `"Final Answer:"`). -/
def bonSeparators : List String :=
  ["Answer:", "Final Answer:", "Conclusion:", "Result:"]

/-- First separator of the array that occurs in the response, with its
position and length. -/
def findFirstSep : List String → String → Option (Nat × Nat)
  | [], _ => none
  | sep :: rest, r =>
    match strFind r sep with
    | some p => some (p, sep.length)
    | none => findFirstSep rest r

/-- `BestOfNAggregator::parse_response`: split at the first separator,
else at the last period, else the whole response is the answer. -/
def parseResponse (response : String) : String × String :=
  match findFirstSep bonSeparators response with
  | some (pos, sepLen) =>
    (strTrim (String.mk (response.data.take pos)),
     strTrim (String.mk (response.data.drop (pos + sepLen))))
  | none =>
    match rfindChar response '.' with
    | some p =>
      (strTrim (String.mk (response.data.take p)),
       strTrim (String.mk (response.data.drop (p + 1))))
    | none => ("", response)

/-- Stream-collection loop of `run_best_of_n`: accumulates delta text and
adds `usage.total_tokens()` of every `Completed` event carrying usage to
the shared running token count; a stream error aborts the run.  (The
loop does not stop at `Completed`; it drains the stream.) -/
def bestOfNCollect : List EvItem → String → Nat → Except String (String × Nat)
  | [], text, tokens => .ok (text, tokens)
  | .error e :: _, _, _ => .error e
  | .ok (.outputTextDelta d) :: rest, text, tokens =>
    bestOfNCollect rest (text ++ d) tokens
  | .ok (.completed u) :: rest, text, tokens =>
    bestOfNCollect rest text
      (tokens + (match u with | some usage => usage.total_tokens | none => 0))

/-- `BestOfNMetadata`. -/
structure BestOfNMetadata where
  num_candidates : Nat
  total_tokens : Nat
  selection_score : ℚ
  all_candidates : List Solution
deriving Repr, DecidableEq

/-- Candidate-generation loop of `run_best_of_n` over the enumerated
temperature list; the running token count is shared across candidates
(each candidate records the cumulative count, as in the source). -/
def runBestOfNGo (streams : Nat → List EvItem) :
    List (Nat × ℚ) → List Solution → Nat → Except String (List Solution × Nat)
  | [], sols, tokens => .ok (sols, tokens)
  | (idx, temp) :: rest, sols, tokens =>
    match bestOfNCollect (streams idx) "" tokens with
    | .error e => .error ("Failed to generate solution: " ++ e)
    | .ok (text, tokens2) =>
      let p := parseResponse text
      let sol := Solution.new ("best-of-n-candidate-" ++ toString idx)
        p.1 p.2 temp tokens2
      runBestOfNGo streams rest (sols ++ [sol]) tokens2

/-- `BestOfNAggregator::run_best_of_n`: generate
`min num_candidates temperatures.len` candidates, then select. -/
def runBestOfN (temps : List ℚ) (numCandidates : Nat) (method : SelectionMethod)
    (streams : Nat → List EvItem) : Except String (Solution × BestOfNMetadata) :=
  match runBestOfNGo streams (temps.take numCandidates).enum [] 0 with
  | .error e => .error e
  | .ok (sols, total) =>
    if sols.isEmpty then .error "Failed to generate any solutions"
    else
      match selectBestSolution sols method with
      | .error e => .error e
      | .ok (best, score) =>
        .ok (best,
          { num_candidates := sols.length
            total_tokens := total
            selection_score := score
            all_candidates := sols })

/-! ## MOA run (src/crates/mars/src/strategies/moa/mod.rs) -/

/-- `MoaMetadata`. -/
structure MoaMetadata where
  total_tokens : Nat
  phase1_tokens : Nat
  phase2_tokens : Nat
  phase3_tokens : Nat
  num_completions : Nat
  fallback_used : Bool
deriving Repr, DecidableEq

/-- Stream loop of `generate_initial_completions`: one token counted per
delta (the source comment says "Rough estimate"); the loop BREAKS at the
first `Completed`, ignoring its usage; an error fails the phase when
fallback is disabled, otherwise sets the fallback flag and ends this
completion. -/
def moaCollect (fallbackEnabled : Bool) :
    List EvItem → String → Nat → Except String (String × Nat × Bool)
  | [], resp, t => .ok (resp, t, false)
  | .ok (.outputTextDelta d) :: rest, resp, t =>
    moaCollect fallbackEnabled rest (resp ++ d) (t + 1)
  | .ok (.completed _) :: _, resp, t => .ok (resp, t, false)
  | .error e :: _, resp, t =>
    if fallbackEnabled then .ok (resp, t, true)
    else .error ("Failed to generate completion: " ++ e)

/-- Completion loop of MOA phase 1: empty responses are not pushed; the
token count is shared across the phase. -/
def moaPhase1Go (streams : Nat → List EvItem) (fallbackEnabled : Bool) :
    List Nat → List String → Nat → Bool → Except String (List String × Nat × Bool)
  | [], comps, t, fb => .ok (comps, t, fb)
  | i :: rest, comps, t, fb =>
    match moaCollect fallbackEnabled (streams i) "" t with
    | .error e => .error e
    | .ok (resp, t2, fbUsed) =>
      moaPhase1Go streams fallbackEnabled rest
        (if resp ≠ "" then comps ++ [resp] else comps) t2 (fb || fbUsed)

/-- Padding loop of phase 1: duplicate the first completion until
`num_completions` are present (only reached with a non-empty list). -/
def padTo (comps : List String) (n : Nat) : List String :=
  comps ++ List.replicate (n - comps.length) (comps.headD "")

/-- `MoaAggregator::generate_initial_completions`. -/
def moaPhase1 (streams : Nat → List EvItem) (numCompletions : Nat)
    (fallbackEnabled : Bool) : Except String (List String × Nat × Bool) :=
  match moaPhase1Go streams fallbackEnabled (List.range numCompletions) [] 0 false with
  | .error e => .error e
  | .ok (comps, t, fb) =>
    if comps.isEmpty then
      .error "Failed to generate any completions in MOA phase 1"
    else .ok (padTo comps numCompletions, t, fb)

/-- Stream loop shared by MOA phases 2 and 3: one token per delta, break
at `Completed`, any error aborts. -/
def moaPhase23Collect : List EvItem → String → Nat → Except String (String × Nat)
  | [], resp, t => .ok (resp, t)
  | .ok (.outputTextDelta d) :: rest, resp, t =>
    moaPhase23Collect rest (resp ++ d) (t + 1)
  | .ok (.completed _) :: _, resp, t => .ok (resp, t)
  | .error e :: _, _, _ => .error e

/-- `MoaAggregator::generate_critique` (phase 2): needs at least three
completions; an empty critique is an error. -/
def moaCritique (events : List EvItem) (comps : List String) :
    Except String (String × Nat) :=
  if comps.length < 3 then
    .error "MOA requires at least 3 completions for critique"
  else
    match moaPhase23Collect events "" 0 with
    | .error e => .error ("Failed to generate critique in MOA phase 2: " ++ e)
    | .ok (critique, t) =>
      if critique = "" then
        .error "Failed to generate critique in MOA phase 2"
      else .ok (critique, t)

/-- `MoaAggregator::generate_final_synthesis` (phase 3). -/
def moaSynthesis (events : List EvItem) (comps : List String) :
    Except String (String × Nat) :=
  if comps.length < 3 then
    .error "MOA requires at least 3 completions for synthesis"
  else
    match moaPhase23Collect events "" 0 with
    | .error e => .error ("Failed to generate final synthesis in MOA phase 3: " ++ e)
    | .ok (synthesis, t) =>
      if synthesis = "" then
        .error "Failed to generate final synthesis in MOA phase 3"
      else .ok (synthesis, t)

/-- `MoaAggregator::run_moa`.  Calls are numbered in order: phase 1 uses
streams `0..num_completions`, phase 2 the next stream, phase 3 the one
after. -/
def runMoa (numCompletions : Nat) (fallbackEnabled : Bool)
    (streams : Nat → List EvItem) : Except String (Solution × MoaMetadata) :=
  match moaPhase1 streams numCompletions fallbackEnabled with
  | .error e => .error e
  | .ok (comps, p1, fb) =>
    match moaCritique (streams numCompletions) comps with
    | .error e => .error e
    | .ok (critique, p2) =>
      match moaSynthesis (streams (numCompletions + 1)) comps with
      | .error e => .error e
      | .ok (finalAnswer, p3) =>
        let total := p1 + p2 + p3
        let reasoning :=
          "MOA Aggregation:\n\nCandidates generated: " ++ toString comps.length ++
          "\n\nCritique:\n" ++ critique ++ "\n\nFinal Synthesis:"
        .ok (Solution.new "moa-aggregator" reasoning finalAnswer (1/2) total,
          { total_tokens := total
            phase1_tokens := p1
            phase2_tokens := p2
            phase3_tokens := p3
            num_completions := comps.length
            fallback_used := fb })

/-- Number of leading `OutputTextDelta` items of a stream — exactly the
deltas a MOA stream loop processes before its first non-delta item
(`Completed`, an error, or the stream end). -/
def leadingDeltas (events : List EvItem) : Nat :=
  (events.takeWhile
    (fun e => match e with | .ok (.outputTextDelta _) => true | _ => false)).length

/-! ## RTO (src/crates/mars/src/strategies/rto/mod.rs) -/

/-- `RTOConfig`. -/
structure RTOConfig where
  initial_temperature : ℚ
  description_temperature : ℚ
  second_temperature : ℚ
  synthesis_temperature : ℚ
  max_tokens_initial : Nat
  max_tokens_description : Nat
  max_tokens_second : Nat
  max_tokens_synthesis : Nat
deriving Repr, DecidableEq

/-- `RTOConfig::new` (all temperatures 0.1, default token limits). -/
def RTOConfig.new : RTOConfig :=
  ⟨1/10, 1/10, 1/10, 1/10, 4096, 1024, 4096, 4096⟩

/-- `RTOConfig::validate`: all four temperatures within `[0, 2]` and all
four token limits positive. -/
def RTOConfig.validate (c : RTOConfig) : Except String Unit :=
  if ¬ (0 ≤ c.initial_temperature ∧ c.initial_temperature ≤ 2) then
    .error "initial_temperature must be between 0.0 and 2.0"
  else if ¬ (0 ≤ c.description_temperature ∧ c.description_temperature ≤ 2) then
    .error "description_temperature must be between 0.0 and 2.0"
  else if ¬ (0 ≤ c.second_temperature ∧ c.second_temperature ≤ 2) then
    .error "second_temperature must be between 0.0 and 2.0"
  else if ¬ (0 ≤ c.synthesis_temperature ∧ c.synthesis_temperature ≤ 2) then
    .error "synthesis_temperature must be between 0.0 and 2.0"
  else if c.max_tokens_initial = 0 ∨ c.max_tokens_description = 0 ∨
      c.max_tokens_second = 0 ∨ c.max_tokens_synthesis = 0 then
    .error "All max_tokens values must be greater than 0"
  else .ok ()

/-- `RTOMetadata`. -/
structure RTOMetadata where
  total_tokens : Nat
  initial_solution : String
  description : String
  second_solution : String
  solutions_differed : Bool
  synthesized_solution : Option String
deriving Repr, DecidableEq

/-- Stream loop of `RTOAggregator::generate_solution`: text accumulates;
the token count is ASSIGNED from each `Completed` carrying usage (the
last such event wins; none leaves 0); an error aborts. -/
def rtoCollect : List EvItem → String → Nat → Except String (String × Nat)
  | [], resp, t => .ok (resp, t)
  | .ok (.outputTextDelta d) :: rest, resp, t => rtoCollect rest (resp ++ d) t
  | .ok (.completed u) :: rest, resp, t =>
    rtoCollect rest resp (match u with | some usage => usage.total_tokens | none => t)
  | .error e :: _, _, _ => .error ("Failed to generate solution: " ++ e)

/-- The backtick character (written via a string literal). -/
def btick : Char := "`".toList.headD ' '

/-- The three-backtick fence delimiter. -/
def ticks : List Char := [btick, btick, btick]

/-- Character class `[\w-]` of the fence regex. -/
def isWordOrDash (c : Char) : Bool :=
  c.isAlphanum || c = '_' || c = '-'

/-- Lazy search for the next closing fence: content before the first
occurrence of three backticks, or `none`. -/
def splitAtTicks : List Char → Option (List Char)
  | [] => none
  | c :: rest =>
    if ticks.isPrefixOf (c :: rest) then some []
    else
      match splitAtTicks rest with
      | some pre => some (c :: pre)
      | none => none

/-- Attempt to match the fence regex `(?s)` three backticks, an optional
`[\w-]+` language tag, a newline, then a lazy capture up to the next
three backticks — anchored at the head of `cs`. -/
def tryFenceAt (cs : List Char) : Option (List Char) :=
  if ticks.isPrefixOf cs then
    match (cs.drop 3).dropWhile isWordOrDash with
    | [] => none
    | c :: body => if c = '\n' then splitAtTicks body else none
  else none

/-- Leftmost match of the fence regex: try every start offset in order. -/
def findFence : List Char → Option (List Char)
  | [] => none
  | c :: rest =>
    match tryFenceAt (c :: rest) with
    | some content => some content
    | none => findFence rest

/-- `RTOAggregator::extract_code`: the trimmed first fenced block, or the
input unchanged when no fence matches. -/
def extractCode (text : String) : String :=
  match findFence text.data with
  | some content => strTrim (String.mk content)
  | none => text

/-- `split_whitespace().collect::<String>()`: drop every whitespace
character. -/
def normalizeWs (s : String) : String :=
  String.mk (s.data.filter (fun c => ¬ c.isWhitespace))

/-- `RTOAggregator::solutions_differ`: normalized comparison of the
extracted code of both solutions. -/
def solutionsDiffer (sol1 sol2 : String) : Bool :=
  normalizeWs (extractCode sol1) ≠ normalizeWs (extractCode sol2)

/-- `RTOAggregator::run_rto`: C1, Q2, C2 in order (streams 0–2), then C3
(stream 3) only when the solutions differ. -/
def runRto (config : RTOConfig) (streams : Nat → List EvItem) :
    Except String (Solution × RTOMetadata) :=
  match config.validate with
  | .error e => .error e
  | .ok _ =>
    match rtoCollect (streams 0) "" 0 with
    | .error e => .error e
    | .ok (initialSolution, t1) =>
      match rtoCollect (streams 1) "" 0 with
      | .error e => .error e
      | .ok (description, t2) =>
        match rtoCollect (streams 2) "" 0 with
        | .error e => .error e
        | .ok (secondSolution, t3) =>
          let differed := solutionsDiffer initialSolution secondSolution
          if differed then
            match rtoCollect (streams 3) "" 0 with
            | .error e => .error e
            | .ok (synth, t4) =>
              let total := t1 + t2 + t3 + t4
              .ok (Solution.new "rto" "RTO: C1 -> Q2 -> C2 -> C3" synth
                    config.initial_temperature total,
                { total_tokens := total
                  initial_solution := initialSolution
                  description := description
                  second_solution := secondSolution
                  solutions_differed := true
                  synthesized_solution := some synth })
          else
            let total := t1 + t2 + t3 + 0
            .ok (Solution.new "rto" "RTO: C1 -> Q2 -> C2 -> Final"
                  initialSolution config.initial_temperature total,
              { total_tokens := total
                initial_solution := initialSolution
                description := description
                second_solution := secondSolution
                solutions_differed := false
                synthesized_solution := none })

/-! ## Self-consistency voting
(src/crates/mars/src/strategies/self_consistency/mod.rs) -/

/-- `ReasoningPath`. -/
structure ReasoningPath where
  id : Nat
  reasoning : String
  extracted_answer : String
  temperature : ℚ
  reasoning_length : Nat
deriving Repr, DecidableEq

/-- Value stored for an answer in the `vote_counts` HashMap of
`consensus_vote`: the number of paths that extracted it. -/
def voteCount (paths : List ReasoningPath) (a : String) : Nat :=
  (paths.filter (fun p => p.extracted_answer = a)).length

/-- Rust `Iterator::max_by_key`: when several elements have the equal
maximal key, the LAST of them is returned. -/
def maxByKeyLast : List (String × Nat) → Option (String × Nat)
  | [] => none
  | x :: rest =>
    some (rest.foldl (fun acc y => if acc.2 ≤ y.2 then y else acc) x)

/-- `SelfConsistencyAggregator::majority_vote`.  A Rust `HashMap`
iterates in an unspecified, per-map-randomized order, so the embedding
takes the iteration order as a parameter: `order` is the key sequence
the iterator yields (any duplicate-free enumeration of the map keys,
which are exactly the extracted answers). -/
def majorityVote (paths : List ReasoningPath) (order : List String) : String :=
  match maxByKeyLast (order.map (fun a => (a, voteCount paths a))) with
  | some p => p.1
  | none => ""

/-! ## CLI configuration loading (src/crates/cli/src/config.rs) -/

/-- A JSON value (the subset needed by the configuration file; numbers
appearing in configs are integral). -/
inductive Json where
  | null
  | bool (b : Bool)
  | num (n : Int)
  | str (s : String)
  | arr (xs : List Json)
  | obj (fields : List (String × Json))

/-- The CLI `Config` record: all fields optional. -/
structure CliConfig where
  api_key : Option String
  model : Option String
  api_base : Option String
  system_prompt : Option String
  timeout : Option Nat
deriving Repr, DecidableEq

/-- The five field names of `Config`. -/
def cliConfigKeys : List String :=
  ["api_key", "model", "api_base", "system_prompt", "timeout"]

/-- Deserialize an `Option<String>` field: absent or `null` gives `None`,
a string gives `Some`, anything else is a type error. -/
def getOptStr (fields : List (String × Json)) (name : String) :
    Except String (Option String) :=
  match fields.lookup name with
  | none => .ok none
  | some .null => .ok none
  | some (.str s) => .ok (some s)
  | some _ => .error ("invalid type for field " ++ name)

/-- Deserialize an `Option<u64>` field. -/
def getOptNat (fields : List (String × Json)) (name : String) :
    Except String (Option Nat) :=
  match fields.lookup name with
  | none => .ok none
  | some .null => .ok none
  | some (.num n) =>
    if 0 ≤ n then .ok (some n.toNat)
    else .error ("invalid value for field " ++ name)
  | some _ => .error ("invalid type for field " ++ name)

/-- Modelled from the spec and the serde contract: the body of
`Config::from_file` delegates parsing to `serde_json::from_str::<Config>`
(an external library).  `Config` derives `Deserialize` WITHOUT
`#[serde(deny_unknown_fields)]`, so the derived deserializer reads the
five known fields, errors on duplicates and type mismatches, and
silently IGNORES every unknown key. -/
def configFromJson : Json → Except String CliConfig
  | .obj fields =>
    if (fields.map Prod.fst).Nodup then
      match getOptStr fields "api_key" with
      | .error e => .error e
      | .ok apiKey =>
        match getOptStr fields "model" with
        | .error e => .error e
        | .ok model =>
          match getOptStr fields "api_base" with
          | .error e => .error e
          | .ok apiBase =>
            match getOptStr fields "system_prompt" with
            | .error e => .error e
            | .ok systemPrompt =>
              match getOptNat fields "timeout" with
              | .error e => .error e
              | .ok timeout =>
                .ok ⟨apiKey, model, apiBase, systemPrompt, timeout⟩
    else .error "duplicate field"
  | _ => .error "invalid type: expected a map"

/-! ## MARS phase 3 verification
(src/crates/mars/src/core/coordinator.rs, src/mars/src/verifier.rs) -/

/-- Outcome of one `Verifier::verify_solution` call.  The module
`crate::core::verifier` used by the coordinator is absent from the
sources (its sibling `src/mars/src/verifier.rs` always returns
`Ok(is_correct = true, score = 0.9)`); the embedding keeps the outcome
abstract, which only widens the claim. -/
inductive VerifyOutcome where
  | ok (is_correct : Bool) (score : ℚ)
  | err (msg : String)

/-- `Workspace::update_solution`: replace the first stored solution with
a matching id; when no id matches the error is ignored by the caller
(`let _ = ...`), so the store is returned unchanged. -/
def replaceById : List Solution → Solution → List Solution
  | [], _ => []
  | s :: rest, upd =>
    if s.id = upd.id then upd :: rest else s :: replaceById rest upd

/-- One verifier iteration of `phase_verification`: clone the PHASE-START
snapshot of the solution, record the outcome on the clone, and replace
the stored record; a verification error only emits an event. -/
def verifyOne (snap : Solution) (outcome : VerifyOutcome)
    (store : List Solution) : List Solution :=
  match outcome with
  | .ok c sc =>
    replaceById store
      (if c then snap.add_verification_pass sc else snap.add_verification_failure)
  | .err _ => store

/-- Solution loop of `phase_verification` over the enumerated snapshot;
each solution is processed by two verifier agents in order. -/
def phaseVerifyGo (outcomes : Nat → Fin 2 → VerifyOutcome) :
    List (Nat × Solution) → List Solution → List Solution
  | [], store => store
  | (i, snap) :: rest, store =>
    phaseVerifyGo outcomes rest
      (verifyOne snap (outcomes i 1) (verifyOne snap (outcomes i 0) store))

/-- `MarsCoordinator::phase_verification`: the snapshot iterated over is
the workspace content at phase start. -/
def phaseVerification (outcomes : Nat → Fin 2 → VerifyOutcome)
    (store : List Solution) : List Solution :=
  phaseVerifyGo outcomes store.enum store

/-- `Verifier::meets_consensus` (src/mars/src/verifier.rs): verified iff
enough passes and zero failures. -/
def meetsConsensus (s : Solution) (consensusThreshold : Nat) : Bool :=
  consensusThreshold ≤ s.verification_passes && s.verification_failures == 0

/-! ## MCTS engine (src/crates/mars/src/strategies/mcts/mod.rs)

The engine's `f32` transcendentals (`ln`, `sqrt`) are taken as explicit
function parameters of the embedding; every theorem below either holds
for ALL such parameters or instantiates them with rational stand-ins
that agree with `f32` on the inputs actually reached.  `rand::thread_rng`
choices are modelled by an oracle of naturals consumed in call order
(`choose`/`gen_range` pick index `oracle k % len`).  In the present
sources `generate_actions`, `apply_action` and `evaluate_state` are
deterministic stubs (no backend call); the embedding reproduces them. -/

/-- A dialogue `Message`. -/
structure MMessage where
  role : String
  content : String
deriving Repr, DecidableEq

/-- `DialogueState`. -/
structure DialogueState where
  system_prompt : String
  conversation_history : List MMessage
  current_query : String
deriving Repr, DecidableEq

/-- `MCTSNode`: arena node with integer parent/child handles. -/
structure MCTSNode where
  state : DialogueState
  parent : Option Nat
  children : List Nat
  visits : Nat
  value : ℚ
deriving Repr, DecidableEq

instance : Inhabited MCTSNode :=
  ⟨⟨⟨"", [], ""⟩, none, [], 0, 0⟩⟩

/-- `MCTSConfig`. -/
structure MCTSConfig where
  simulation_depth : Nat
  exploration_weight : ℚ
  num_simulations : Nat
  num_actions : Nat
  generation_temperature : ℚ
  evaluation_temperature : ℚ
  max_history_length : Nat
deriving Repr, DecidableEq

/-- The two `f32` transcendental operations reached by `MCTS::select`,
kept abstract. -/
structure FloatOps where
  ln : ℚ → ℚ
  sqrt : ℚ → ℚ

/-- `MCTS::is_terminal`: history longer than the limit, or the
lowercased query contains "goodbye". -/
def isTerminal (cfg : MCTSConfig) (s : DialogueState) : Bool :=
  cfg.max_history_length < s.conversation_history.length
    || strContains (strToLower s.current_query) "goodbye"

/-- `MCTS::generate_actions` (source stub): `action_0 .. action_{n-1}`. -/
def generateActions (numActions : Nat) : List String :=
  (List.range numActions).map (fun i => "action_" ++ toString i)

/-- `MCTS::apply_action` (source stub): append the assistant action and
predict the next query deterministically. -/
def applyAction (s : DialogueState) (action : String) : DialogueState :=
  { system_prompt := s.system_prompt
    conversation_history := s.conversation_history ++ [⟨"assistant", action⟩]
    current_query := "next_query_based_on_" ++ action }

/-- The UCB score of one child:
`value/(visits+ε) + c · sqrt(ln(parent_visits+1)/(visits+ε))` with
`ε = 1e-8`. -/
def ucbScore (ops : FloatOps) (c parentVisits : ℚ) (child : MCTSNode) : ℚ :=
  let eps : ℚ := 1 / 100000000
  child.value / ((child.visits : ℚ) + eps)
    + c * ops.sqrt (ops.ln (parentVisits + 1) / ((child.visits : ℚ) + eps))

/-- Child loop of `MCTS::select`: running strict maximum of UCB over the
children (the initial best score is `f32::NEG_INFINITY`, so the first
child always installs itself; on exact ties the earlier child is kept). -/
def selectGo (ops : FloatOps) (nodes : List MCTSNode) (c parentVisits : ℚ) :
    List Nat → Nat → Option ℚ → Nat
  | [], bi, _ => bi
  | ci :: rest, bi, best =>
    let score := ucbScore ops c parentVisits (nodes.getD ci default)
    match best with
    | none => selectGo ops nodes c parentVisits rest ci (some score)
    | some b =>
      if b < score then selectGo ops nodes c parentVisits rest ci (some score)
      else selectGo ops nodes c parentVisits rest bi (some b)

/-- `MCTS::select`: the current node when childless, else the child with
maximal UCB. -/
def mctsSelect (ops : FloatOps) (cfg : MCTSConfig) (nodes : List MCTSNode)
    (nodeIdx : Nat) : Nat :=
  let node := nodes.getD nodeIdx default
  match node.children with
  | [] => nodeIdx
  | c0 :: _ =>
    selectGo ops nodes cfg.exploration_weight (node.visits : ℚ)
      node.children c0 none

/-- Append a child handle to a node's child list (`nodes[parent].children
.push(child)`). -/
def pushChild (nodes : List MCTSNode) (parentIdx childIdx : Nat) :
    List MCTSNode :=
  match nodes.get? parentIdx with
  | some n => nodes.set parentIdx { n with children := n.children ++ [childIdx] }
  | none => nodes

/-- One action of the expansion loop: push a fresh child node (parent set
to the expanded node) and register its handle. -/
def expandStep (parentState : DialogueState) (nodeIdx : Nat)
    (nodes : List MCTSNode) (action : String) : List MCTSNode :=
  let childIdx := nodes.length
  pushChild (nodes ++ [⟨applyAction parentState action, some nodeIdx, [], 0, 0⟩])
    nodeIdx childIdx

/-- `MCTS::expand`: create one child per generated action, then pick one
child uniformly at random to simulate from (the expanded node itself when
no child exists).  Returns the new arena, the chosen index, and the
advanced randomness counter. -/
def mctsExpand (cfg : MCTSConfig) (nodes : List MCTSNode) (nodeIdx : Nat)
    (oracle : Nat → Nat) (k : Nat) : List MCTSNode × Nat × Nat :=
  let node := nodes.getD nodeIdx default
  let nodes2 := (generateActions cfg.num_actions).foldl
    (expandStep node.state nodeIdx) nodes
  let children := (nodes2.getD nodeIdx default).children
  match children with
  | [] => (nodes2, nodeIdx, k)
  | _ :: _ => (nodes2, children.getD (oracle k % children.length) 0, k + 1)

/-- Rollout loop of `MCTS::simulate`: up to `simulation_depth` random
steps, stopping at a terminal state or when no action is available. -/
def simulateLoop (cfg : MCTSConfig) (oracle : Nat → Nat) :
    Nat → DialogueState → Nat → DialogueState × Nat
  | 0, s, k => (s, k)
  | d + 1, s, k =>
    if isTerminal cfg s then (s, k)
    else
      match generateActions cfg.num_actions with
      | [] => (s, k)
      | a :: rest =>
        simulateLoop cfg oracle d
          (applyAction s ((a :: rest).getD (oracle k % (a :: rest).length) ""))
          (k + 1)

/-- `MCTS::simulate`: rollout, then `evaluate_state` — a source stub that
always returns the neutral score `0.5`. -/
def mctsSimulate (cfg : MCTSConfig) (nodes : List MCTSNode) (nodeIdx : Nat)
    (oracle : Nat → Nat) (k : Nat) : ℚ × Nat :=
  let s := (nodes.getD nodeIdx default).state
  let p := simulateLoop cfg oracle cfg.simulation_depth s k
  (1/2, p.2)

/-- `MCTS::backpropagate`: walk the parent chain, adding one visit and
the simulated value to every node on it.  The source loop terminates
because parent handles strictly decrease; the embedding carries fuel and
is run with fuel `nodes.length`, which the well-formedness invariant
proves sufficient. -/
def backpropagate (value : ℚ) : Nat → List MCTSNode → Nat → List MCTSNode
  | 0, nodes, _ => nodes
  | fuel + 1, nodes, idx =>
    match nodes.get? idx with
    | none => nodes
    | some n =>
      let nodes2 := nodes.set idx
        { n with visits := n.visits + 1, value := n.value + value }
      match n.parent with
      | none => nodes2
      | some p => backpropagate value fuel nodes2 p

/-- Selection descent of `MCTS::search`: follow `select` while the
current node has children.  The source loop terminates because child
handles strictly increase; fuel `nodes.length` is sufficient. -/
def descend (ops : FloatOps) (cfg : MCTSConfig) (nodes : List MCTSNode) :
    Nat → Nat → Nat
  | 0, idx => idx
  | fuel + 1, idx =>
    match (nodes.getD idx default).children with
    | [] => idx
    | _ :: _ => descend ops cfg nodes fuel (mctsSelect ops cfg nodes idx)

/-- One simulation iteration of `MCTS::search`: select a leaf, expand it
unless terminal, simulate, backpropagate. -/
def mctsIter (ops : FloatOps) (cfg : MCTSConfig) (oracle : Nat → Nat)
    (st : List MCTSNode × Nat) : List MCTSNode × Nat :=
  let idx0 := descend ops cfg st.1 st.1.length 0
  let next :=
    if isTerminal cfg (st.1.getD idx0 default).state then (st.1, idx0, st.2)
    else mctsExpand cfg st.1 idx0 oracle st.2
  let sim := mctsSimulate cfg next.1 next.2.1 oracle next.2.2
  (backpropagate sim.1 next.1.length next.1 next.2.1, sim.2)

/-- The arena produced by `MCTS::search` on a fresh engine (`MCTS::new`
leaves `root_idx = None`, so `search` installs the initial state as node
0) after `num_simulations` iterations. -/
def mctsRunNodes (ops : FloatOps) (cfg : MCTSConfig) (oracle : Nat → Nat)
    (initialState : DialogueState) : List MCTSNode :=
  ((List.range cfg.num_simulations).foldl
    (fun st _ => mctsIter ops cfg oracle st)
    ([⟨initialState, none, [], 0, 0⟩], 0)).1

/-- Rust `Iterator::max_by_key` over `(handle, visits)` pairs: the LAST
element with the maximal key wins ties. -/
def maxByVisitsLast : List (Nat × Nat) → Option (Nat × Nat)
  | [] => none
  | x :: rest =>
    some (rest.foldl (fun acc y => if acc.2 ≤ y.2 then y else acc) x)

/-- `MCTS::search` on a fresh engine: run the simulations, then return
the root's state if it is childless, else the state of the root child
with the most visits (via `max_by_key`). -/
def mctsSearch (ops : FloatOps) (cfg : MCTSConfig) (oracle : Nat → Nat)
    (initialState : DialogueState) : DialogueState :=
  let nodes := mctsRunNodes ops cfg oracle initialState
  let root := nodes.getD 0 default
  match maxByVisitsLast (root.children.map
      (fun ci => (ci, (nodes.getD ci default).visits))) with
  | some p => (nodes.getD p.1 default).state
  | none => root.state

/-! ## Ollama streaming backend (src/crates/mars/src/providers/ollama.rs)

The embedding models the response-body processing of
`OllamaClient::stream` after a successful HTTP send: the transport input
is a list of chunks (each a byte chunk or a transport error), and JSON
parsing — performed by the external `serde_json` library — is a function
parameter mapping a trimmed line to its parsed `OllamaResponse`, `none`
denoting a parse failure. -/

/-- The fields of `OllamaResponse` the stream loop reads (`message` is
collapsed to its `content` string; `role` is never read). -/
structure OllamaResponse where
  message : Option String
  done : Bool
  prompt_eval_count : Option Nat
  eval_count : Option Nat
deriving Repr, DecidableEq

/-- A unit of line processing: a complete line (terminated by a newline
in the body), the trailing unterminated line, or a transport error. -/
inductive Tok where
  | line (s : String)
  | tailLine (s : String)
  | terr (msg : String)
deriving Repr, DecidableEq

/-- Split the chunk sequence into processing units, carrying the
unterminated buffer across chunks.  A transport error drops the buffer
and everything after it (the source yields the error and returns); at
the end of the body a non-blank buffered remainder is processed as the
tail line. -/
def tokenize : List (Except String String) → List Char → List Tok
  | [], buffered =>
    if strTrim (String.mk buffered) ≠ "" then [.tailLine (String.mk buffered)] else []
  | .error e :: _, _ => [.terr ("Failed to read response stream: " ++ e)]
  | .ok chunk :: rest, buffered =>
    let segs := splitOnChar '\n' (buffered ++ chunk.data)
    (segs.dropLast.map (fun l => Tok.line (String.mk l))) ++
      tokenize rest (segs.getLastD [])

/-- Events emitted for one parsed complete line, together with the
updated `(total_eval_count, prompt_eval_count)` counters: a delta when
the message content is non-empty, then — only when `done` — a
`Completed` carrying the counters as usage. -/
def lineEvents (st : Nat × Nat) (r : OllamaResponse) :
    List EvItem × (Nat × Nat) :=
  let deltas : List EvItem :=
    match r.message with
    | some content =>
      if content ≠ "" then [.ok (.outputTextDelta content)] else []
    | none => []
  if r.done then
    let te := match r.eval_count with | some e => e | none => st.1
    let pe := match r.prompt_eval_count with | some p => p | none => st.2
    (deltas ++ [.ok (.completed (some ⟨pe, te⟩))], (te, pe))
  else (deltas, st)

/-- Events emitted for the trailing unterminated line: the same delta,
then a `Completed` emitted UNCONDITIONALLY — the tail-processing block
of the source does not test `done`. -/
def tailEvents (st : Nat × Nat) (r : OllamaResponse) : List EvItem :=
  let deltas : List EvItem :=
    match r.message with
    | some content =>
      if content ≠ "" then [.ok (.outputTextDelta content)] else []
    | none => []
  let te := match r.eval_count with | some e => e | none => st.1
  let pe := match r.prompt_eval_count with | some p => p | none => st.2
  deltas ++ [.ok (.completed (some ⟨pe, te⟩))]

/-- Sequential processing of the units: blank lines are skipped, a parse
failure or transport error yields a single error item and ends the
sequence. -/
def processToks (parse : String → Option OllamaResponse) :
    List Tok → (Nat × Nat) → List EvItem
  | [], _ => []
  | .terr msg :: _, _ => [.error msg]
  | .line l :: rest, st =>
    if strTrim l = "" then processToks parse rest st
    else
      match parse (strTrim l) with
      | some r =>
        let p := lineEvents st r
        p.1 ++ processToks parse rest p.2
      | none => [.error "Failed to parse Ollama response"]
  | .tailLine l :: _, st =>
    match parse (strTrim l) with
    | some r => tailEvents st r
    | none => [.error "Failed to parse Ollama response"]

/-- The item sequence `OllamaClient::stream` yields for a given response
body (counters start at zero). -/
def ollamaStreamItems (parse : String → Option OllamaResponse)
    (chunks : List (Except String String)) : List EvItem :=
  processToks parse (tokenize chunks []) (0, 0)

/-- Number of `Completed` items in an item sequence. -/
def countCompleted (items : List EvItem) : Nat :=
  (items.filter
    (fun e => match e with | .ok (.completed _) => true | _ => false)).length

/-- Whether a processing unit can emit a `Completed` event: a complete
line whose parse succeeds with `done = true`, or any tail line whose
parse succeeds. -/
def isDoneTok (parse : String → Option OllamaResponse) : Tok → Bool
  | .line l =>
    if strTrim l = "" then false
    else
      match parse (strTrim l) with
      | some r => r.done
      | none => false
  | .tailLine l => (parse (strTrim l)).isSome
  | .terr _ => false

/-- Whether an item is an error item (transport or parse failure). -/
def isErrItem : EvItem → Bool
  | .error _ => true
  | .ok _ => false

/-- Error items are terminal: whenever an error item appears in the
sequence, nothing follows it (hence also at most one error item). -/
def errorsTerminal : List EvItem → Bool
  | [] => true
  | e :: rest => if isErrItem e then rest.isEmpty else errorsTerminal rest

/-- A concrete parse oracle for the stream counterexamples: the line
`"D"` parses to a response with content `"hi"`, `done = true`,
`prompt_eval_count = 7` and `eval_count = 5`; everything else fails. -/
def cexOllamaParse : String → Option OllamaResponse :=
  fun s => if s = "D" then some ⟨some "hi", true, some 7, some 5⟩ else none

/-! ## Generic selection-loop abstractions

The Best-of-N selection loops all share one of two shapes: a running
strict maximum (`if best < key s then update`) or a running strict
minimum.  The generic forms below are proved equal to the concrete
source embeddings and carry the shared correctness lemmas. -/

/-- Generic running-first-maximum loop. -/
def firstMaxGo [LinearOrder β] (key : α → β) :
    List α → Nat → Nat → β → Nat × β
  | [], _, bi, bs => (bi, bs)
  | s :: rest, i, bi, bs =>
    if bs < key s then firstMaxGo key rest (i + 1) i (key s)
    else firstMaxGo key rest (i + 1) bi bs

/-- Generic running-first-minimum loop. -/
def firstMinGo [LinearOrder β] (key : α → β) :
    List α → Nat → Nat → β → Nat × β
  | [], _, bi, bs => (bi, bs)
  | s :: rest, i, bi, bs =>
    if key s < bs then firstMinGo key rest (i + 1) i (key s)
    else firstMinGo key rest (i + 1) bi bs

/-- Key of the element at an index (out-of-range reads the default). -/
def keyAt [Inhabited α] (key : α → β) (l : List α) (j : Nat) : β :=
  key (l.getD j default)

/-- `bi` is the first index attaining the maximal key over `l`. -/
def IsFirstMax [LinearOrder β] [Inhabited α] (key : α → β) (l : List α)
    (bi : Nat) : Prop :=
  bi < l.length ∧
  (∀ j < l.length, keyAt key l j ≤ keyAt key l bi) ∧
  (∀ j < l.length, keyAt key l bi ≤ keyAt key l j → bi ≤ j)

/-- `bi` is the first index attaining the minimal key over `l`. -/
def IsFirstMin [LinearOrder β] [Inhabited α] (key : α → β) (l : List α)
    (bi : Nat) : Prop :=
  bi < l.length ∧
  (∀ j < l.length, keyAt key l bi ≤ keyAt key l j) ∧
  (∀ j < l.length, keyAt key l j ≤ keyAt key l bi → bi ≤ j)

/-- `bi` is the LAST index attaining the maximal value of `scores`. -/
def IsLastMax (scores : List ℚ) (bi : Nat) : Prop :=
  bi < scores.length ∧
  (∀ j < scores.length, scores.getD j 0 ≤ scores.getD bi 0) ∧
  (∀ j < scores.length, scores.getD bi 0 ≤ scores.getD j 0 → j ≤ bi)

/-- Two candidates that tie under every `MultiCriteria` sub-score
(identical except for equally long, different answers). -/
def cexSolA : Solution := Solution.new "a" "" "42" (1/2) 0

/-- See `cexSolA`. -/
def cexSolB : Solution := Solution.new "b" "" "43" (1/2) 0

/-- Two reasoning paths with distinct answers and equal vote counts. -/
def cexPaths : List ReasoningPath :=
  [⟨0, "r1", "42", 0, 2⟩, ⟨1, "r2", "43", 0, 2⟩]

/-- A legitimate iteration order of the `vote_counts` HashMap built from
`cexPaths` (its key set is exactly the two extracted answers, and a Rust
`HashMap` may yield them in either order). -/
def cexOrder : List String := ["42", "43"]

/-- Well-typedness of one known configuration field: the four string
fields accept a string or `null`, `timeout` accepts a non-negative
number or `null`. -/
def cliFieldOk (f : String × Json) : Bool :=
  if f.1 = "timeout" then
    match f.2 with
    | .null => true
    | .num k => decide (0 ≤ k)
    | _ => false
  else
    match f.2 with
    | .null => true
    | .str _ => true
    | _ => false

instance : Inhabited BestOfNMetadata :=
  ⟨⟨0, 0, 0, []⟩⟩

instance : Inhabited MoaMetadata :=
  ⟨⟨0, 0, 0, 0, 0, false⟩⟩

/-- A mock backend for the MOA counterexample: every stream yields one
delta and then `Completed` with usage `{input 5, output 7}`. -/
def cexMoaStreams : Nat → List EvItem :=
  fun _ => [.ok (.outputTextDelta "hi"), .ok (.completed (some ⟨5, 7⟩))]

/-- Witness backend for the Best-of-N token-accounting theorem. -/
def wBonStreams : Nat → List EvItem :=
  fun _ => [.ok (.outputTextDelta "six plus six."),
            .ok (.completed (some ⟨4, 8⟩))]

/-- The single temperature of the Best-of-N witness run (an integral
rational, so that kernel reduction never normalizes a fraction). -/
def wBonTemps : List ℚ := [1]

/-- The pair produced by the Best-of-N witness run. -/
def wBonPair : Solution × BestOfNMetadata :=
  ((runBestOfN wBonTemps 1 .bestScore wBonStreams).toOption).getD default

/-- Witness backend for the MOA token-accounting theorem: one delta per
call, no usage. -/
def wMoaStreams : Nat → List EvItem :=
  fun _ => [.ok (.outputTextDelta "hi"), .ok (.completed none)]

/-- The pair produced by the MOA witness run. -/
def wMoaPair : Solution × MoaMetadata :=
  ((runMoa 3 false wMoaStreams).toOption).getD default

/-- Witness configuration for RTO (integral temperatures, so validation
is kernel-decidable). -/
def wRtoConfig : RTOConfig := ⟨1, 1, 1, 1, 1, 1, 1, 1⟩

/-- Witness backend for the RTO short-circuit theorem: C1 and C2 return
the same fenced code up to whitespace. -/
def wRtoStreams : Nat → List EvItem
  | 0 => [.ok (.outputTextDelta "```\nlet x = 1\n```"),
          .ok (.completed (some ⟨1, 2⟩))]
  | 1 => [.ok (.outputTextDelta "write an assignment"),
          .ok (.completed (some ⟨3, 4⟩))]
  | 2 => [.ok (.outputTextDelta "```rust\nlet  x  =  1\n```"),
          .ok (.completed (some ⟨5, 6⟩))]
  | _ => []

/-- Rational tables for the two `f32` transcendentals as reached by the
MCTS counterexample run: `ln 2` is the usual approximation and `sqrt`
maps arguments below one to `0.83` and everything else to `8325`
(consistent with a monotone square root on the two reached inputs). -/
def cexOps : FloatOps :=
  ⟨fun x => if x = 2 then 6931472 / 10000000 else 0,
   fun x => if x < 1 then 83 / 100 else 8325⟩

/-- MCTS configuration for the counterexample: depth 1, exploration 0.2,
two simulations, two actions. -/
def cexMctsCfg : MCTSConfig := ⟨1, 1/5, 2, 2, 1, 1/10, 10⟩

/-- Same configuration with a single simulation (used where the arena
must be kernel-computable, since one iteration never compares UCB
scores). -/
def wMctsCfg : MCTSConfig := ⟨1, 1/5, 1, 2, 1, 1/10, 10⟩

/-- Randomness oracle always answering 0 (every `gen_range` picks the
first element). -/
def cexOr : Nat → Nat := fun _ => 0

/-- Initial dialogue state of the MCTS runs. -/
def cexS0 : DialogueState := ⟨"sys", [], "What is 2+2?"⟩

/-- The arena after the first of the two counterexample iterations: the
root was expanded into children 1 and 2 and child 1 was simulated and
backpropagated. -/
def cexMctsA1 : List MCTSNode :=
  [⟨cexS0, none, [1, 2], 1, 0 + 1/2⟩,
   ⟨⟨"sys", [⟨"assistant", "action_0"⟩], "next_query_based_on_action_0"⟩,
    some 0, [], 1, 0 + 1/2⟩,
   ⟨⟨"sys", [⟨"assistant", "action_1"⟩], "next_query_based_on_action_1"⟩,
    some 0, [], 0, 0⟩]

/-- The arena after the second counterexample iteration: UCB selected
child 2, which was expanded into children 3 and 4; child 3 was simulated
and backpropagated, leaving root children 1 and 2 with one visit each. -/
def cexMctsA2 : List MCTSNode :=
  [⟨cexS0, none, [1, 2], 2, 0 + 1/2 + 1/2⟩,
   ⟨⟨"sys", [⟨"assistant", "action_0"⟩], "next_query_based_on_action_0"⟩,
    some 0, [], 1, 0 + 1/2⟩,
   ⟨⟨"sys", [⟨"assistant", "action_1"⟩], "next_query_based_on_action_1"⟩,
    some 0, [3, 4], 1, 0 + 1/2⟩,
   ⟨⟨"sys", [⟨"assistant", "action_1"⟩, ⟨"assistant", "action_0"⟩],
     "next_query_based_on_action_0"⟩, some 2, [], 1, 0 + 1/2⟩,
   ⟨⟨"sys", [⟨"assistant", "action_1"⟩, ⟨"assistant", "action_1"⟩],
     "next_query_based_on_action_1"⟩, some 2, [], 0, 0⟩]

/-- Well-formedness of the MCTS arena, established by `search`'s
construction: the arena is nonempty, the root (handle 0) has no parent,
parent handles strictly decrease (a node's parent was created earlier),
every non-root node has a parent, and all child handles are in range. -/
def ArenaWf (nodes : List MCTSNode) : Prop :=
  0 < nodes.length ∧
  (nodes.getD 0 default).parent = none ∧
  (∀ i, i < nodes.length → ∀ p, (nodes.getD i default).parent = some p →
    p < i) ∧
  (∀ i, i < nodes.length → 0 < i → (nodes.getD i default).parent ≠ none) ∧
  (∀ i, i < nodes.length → ∀ c ∈ (nodes.getD i default).children,
    c < nodes.length)

end OptRs

/-! # Theorems -/

namespace OptRs

/-! ## Generic lemmas about the Rust `max_by` / `max_by_key` fold

`Iterator::max_by(_key)` reduces with `cmp::max_by`, which keeps its
right argument unless it is strictly smaller — so the LAST maximal
element wins.  The fold below is the common shape of `maxByLast`,
`maxByKeyLast` and `maxByVisitsLast`. -/

theorem maxByFold_mem [LinearOrder β] (x : α × β) (l : List (α × β)) :
    l.foldl (fun acc y => if acc.2 ≤ y.2 then y else acc) x ∈ x :: l := by
  induction l generalizing x with
  | nil => simp
  | cons y l ih =>
    simp only [List.foldl_cons]
    by_cases hxy : x.2 ≤ y.2
    · rw [if_pos hxy]
      exact List.mem_cons_of_mem x (ih y)
    · rw [if_neg hxy]
      rcases List.mem_cons.1 (ih x) with h | h
      · rw [h]
        exact List.mem_cons_self _ _
      · exact List.mem_cons_of_mem _ (List.mem_cons_of_mem _ h)

theorem maxByFold_ge [LinearOrder β] (x : α × β) (l : List (α × β)) :
    ∀ z ∈ x :: l,
      z.2 ≤ (l.foldl (fun acc y => if acc.2 ≤ y.2 then y else acc) x).2 := by
  induction l generalizing x with
  | nil =>
    intro z hz
    rcases List.mem_cons.1 hz with h | h
    · rw [h]
      simp
    · simp at h
  | cons y l ih =>
    intro z hz
    simp only [List.foldl_cons]
    by_cases hxy : x.2 ≤ y.2
    · rw [if_pos hxy]
      rcases List.mem_cons.1 hz with h | h
      · rw [h]
        exact le_trans hxy (ih y y (List.mem_cons_self y l))
      · exact ih y z h
    · rw [if_neg hxy]
      rcases List.mem_cons.1 hz with h | h
      · rw [h]
        exact ih x x (List.mem_cons_self x l)
      · rcases List.mem_cons.1 h with h2 | h2
        · rw [h2]
          exact le_trans (le_of_not_le hxy) (ih x x (List.mem_cons_self x l))
        · exact ih x z (List.mem_cons_of_mem x h2)

theorem maxByFold_last [LinearOrder β] (x : α × β) (l : List (α × β)) :
    ∃ l1 l2, x :: l =
        l1 ++ (l.foldl (fun acc y => if acc.2 ≤ y.2 then y else acc) x) :: l2 ∧
      ∀ z ∈ l2,
        z.2 < (l.foldl (fun acc y => if acc.2 ≤ y.2 then y else acc) x).2 := by
  induction l generalizing x with
  | nil => exact ⟨[], [], rfl, by simp⟩
  | cons y l ih =>
    simp only [List.foldl_cons]
    by_cases hxy : x.2 ≤ y.2
    · rw [if_pos hxy]
      obtain ⟨l1, l2, heq, hlt⟩ := ih y
      exact ⟨x :: l1, l2, by rw [List.cons_append, ← heq], hlt⟩
    · rw [if_neg hxy]
      obtain ⟨l1, l2, heq, hlt⟩ := ih x
      cases l1 with
      | nil =>
        simp only [List.nil_append] at heq
        have h1 : x = l.foldl (fun acc y => if acc.2 ≤ y.2 then y else acc) x :=
          (List.cons_eq_cons.1 heq).1
        have h2 : l = l2 := (List.cons_eq_cons.1 heq).2
        refine ⟨[], y :: l2, ?_, ?_⟩
        · rw [List.nil_append, ← h1, h2]
        · intro z hz
          rcases List.mem_cons.1 hz with rfl | hz2
          · rw [← h1]; exact lt_of_not_le hxy
          · exact hlt z hz2
      | cons w l1 =>
        simp only [List.cons_append] at heq
        have h1 : x = w := (List.cons_eq_cons.1 heq).1
        have h2 : l = l1 ++
            (l.foldl (fun acc y => if acc.2 ≤ y.2 then y else acc) x) :: l2 :=
          (List.cons_eq_cons.1 heq).2
        refine ⟨x :: y :: l1, l2, ?_, hlt⟩
        rw [List.cons_append, List.cons_append, ← h2]

/-! ## C7 — AutoThink complexity scoring -/

theorem analyzeLength_nonneg (words : List String) : 0 ≤ analyzeLength words := by
  simp only [analyzeLength]
  split_ifs <;> norm_num

theorem wordLengthScore_nonneg (x : ℚ) : 0 ≤ wordLengthScore x := by
  simp only [wordLengthScore]
  split_ifs <;> norm_num

theorem analyzeVocabulary_nonneg (q : String) (words : List String) :
    0 ≤ analyzeVocabulary q words := by
  unfold analyzeVocabulary
  refine le_min ?_ (by norm_num)
  have h1 : (0:ℚ) ≤ min (((advancedWords.filter
      (fun w => strContains q w)).length : ℚ) / 15 * (4/10)) (4/10) :=
    le_min (by positivity) (by norm_num)
  have h2 : (0:ℚ) ≤ wordLengthScore (((words.foldl
      (fun acc w => acc + w.length) 0 : Nat) : ℚ) /
      ((max words.length 1 : Nat) : ℚ)) * (3/10) := by
    have := wordLengthScore_nonneg (((words.foldl
      (fun acc w => acc + w.length) 0 : Nat) : ℚ) /
      ((max words.length 1 : Nat) : ℚ))
    positivity
  have h3 : (0:ℚ) ≤ min (((jargonWords.filter
      (fun w => strContains q w)).length : ℚ) / 10 * (3/10)) (3/10) :=
    le_min (by positivity) (by norm_num)
  linarith

theorem analyzeReasoningKeywords_nonneg (q : String) :
    0 ≤ analyzeReasoningKeywords q := by
  unfold analyzeReasoningKeywords
  refine le_min ?_ (by norm_num)
  have h1 : (0:ℚ) ≤ (reasoningIndicators.filter
      (fun kw => strContains q kw.1)).foldl (fun acc kw => max acc kw.2) 0 := by
    generalize (reasoningIndicators.filter (fun kw => strContains q kw.1)) = l
    induction l with
    | nil => simp
    | cons a l ih =>
      simp only [List.foldl_cons]
      calc (0:ℚ) ≤ max 0 a.2 := le_max_left 0 a.2
        _ ≤ _ := by
          generalize max 0 a.2 = m at *
          clear ih
          induction l generalizing m with
          | nil => simp
          | cons b l ih2 =>
            simp only [List.foldl_cons]
            exact le_trans (le_max_left m b.2) (ih2 _)
  have h2 : (0:ℚ) ≤ min (((reasoningIndicators.filter
      (fun kw => strContains q kw.1)).length : ℚ) / 24 * (3/10)) (3/10) :=
    le_min (by positivity) (by norm_num)
  linarith

theorem analyzeDomainIndicators_nonneg (q : String) :
    0 ≤ analyzeDomainIndicators q := by
  unfold analyzeDomainIndicators
  refine le_min ?_ (by norm_num)
  have h1 : ∀ (b : Prop) [Decidable b] (v : ℚ), 0 ≤ v →
      (0:ℚ) ≤ if b then v else 0 := by
    intro b _ v hv
    split <;> simp [hv]
  have := h1 (0 < (["calculus", "algebra", "geometry", "topology",
    "group theory", "number theory"].filter
      (fun w => strContains q w)).length) (8/10) (by norm_num)
  have := h1 (1 < (["algorithm", "data structure", "dynamic programming",
    "sorting", "searching"].filter (fun w => strContains q w)).length)
    (7/10) (by norm_num)
  have := h1 (0 < (["quantum", "relativity", "thermodynamics",
    "mechanics", "electromagnetism"].filter
      (fun w => strContains q w)).length) (9/10) (by norm_num)
  have := h1 (0 < (["logic", "inference", "proof", "axiom",
    "proposition", "theorem"].filter (fun w => strContains q w)).length)
    (85/100) (by norm_num)
  linarith

theorem sentenceLengthScore_nonneg (x : ℚ) : 0 ≤ sentenceLengthScore x := by
  simp only [sentenceLengthScore]
  split_ifs <;> norm_num

theorem analyzeStructure_nonneg (q : String) (words : List String) :
    0 ≤ analyzeStructure q words := by
  unfold analyzeStructure
  refine le_min ?_ (by norm_num)
  have c1 : ∀ x lo hi : ℚ, 0 ≤ lo → 0 ≤ hi → 0 ≤ qclamp x lo hi := by
    intro x lo hi hlo hhi
    unfold qclamp
    exact le_min (le_trans hlo (le_max_right x lo)) hhi
  have c2 : ∀ x : ℚ, 0 ≤ qclamp x 0 (3/10) :=
    fun x => c1 x 0 (3/10) le_rfl (by norm_num)
  have c3 : ∀ x : ℚ, 0 ≤ qclamp x 0 (2/10) :=
    fun x => c1 x 0 (2/10) le_rfl (by norm_num)
  have h1 := c2 ((((countChar q '?' : Nat) : ℚ) - 1) / 5)
  have h4 := sentenceLengthScore_nonneg
    (if (splitOnChar '.' q.data).length ≠ 0 then
      (words.length : ℚ) / ((splitOnChar '.' q.data).length : ℚ) else 0)
  have h2 := c2 (((countChar q '(' + countChar q ')' +
    (countChar q '[' + countChar q ']') : Nat) : ℚ) / 20)
  have h3 := c3 (((countChar q ':' + countChar q ';' : Nat) : ℚ) / 10)
  linarith

/-- C7: the AutoThink complexity score is a pure function of the query
(determinism is the statement of the embedding itself) bounded in
[0, 1], and the temperature returned for the classified level is exactly
the configured one, with the thresholds score < 0.25 → Simple,
score < 0.40 → Medium, otherwise Complex. -/
theorem autothink_score_bounds_and_temperature (cfg : AutoThinkConfig)
    (query : String) :
    0 ≤ calculateComplexityScore query ∧ calculateComplexityScore query ≤ 1 ∧
    getTemperature cfg (classifyComplexity query) =
      (if calculateComplexityScore query < 1/4 then cfg.simple_temperature
       else if calculateComplexityScore query < 2/5 then cfg.medium_temperature
       else cfg.complex_temperature) := by
  refine ⟨?_, ?_, ?_⟩
  · unfold calculateComplexityScore
    refine le_min ?_ (by norm_num)
    have h1 := analyzeLength_nonneg (splitWhitespace (strToLower query))
    have h2 := analyzeVocabulary_nonneg (strToLower query)
      (splitWhitespace (strToLower query))
    have h3 := analyzeReasoningKeywords_nonneg (strToLower query)
    have h4 := analyzeDomainIndicators_nonneg (strToLower query)
    have h5 := analyzeStructure_nonneg query
      (splitWhitespace (strToLower query))
    linarith
  · unfold calculateComplexityScore
    exact min_le_right _ _
  · simp only [classifyComplexity]
    split_ifs <;> rfl

/-! ## C2 — Best-of-N selection -/

theorem firstMaxGo_spec [LinearOrder β] [Inhabited α] (key : α → β)
    (L : List α) (rem : List α) :
    ∀ (i bi : Nat), rem = L.drop i → bi < i → bi < L.length →
      (∀ j < i, keyAt key L j ≤ keyAt key L bi) →
      (∀ j < i, keyAt key L bi ≤ keyAt key L j → bi ≤ j) →
      IsFirstMax key L (firstMaxGo key rem i bi (keyAt key L bi)).1 := by
  induction rem with
  | nil =>
    intro i bi hdrop hbi hbiL hle hfirst
    have hlen : L.length ≤ i := by
      by_contra h
      push_neg at h
      rw [List.drop_eq_getElem_cons h] at hdrop
      exact List.cons_ne_nil _ _ hdrop.symm
    exact ⟨hbiL, fun j hj => hle j (lt_of_lt_of_le hj hlen),
           fun j hj => hfirst j (lt_of_lt_of_le hj hlen)⟩
  | cons s rest ih =>
    intro i bi hdrop hbi hbiL hle hfirst
    have hiL : i < L.length := by
      by_contra h
      push_neg at h
      rw [List.drop_eq_nil_of_le h] at hdrop
      exact List.cons_ne_nil _ _ hdrop
    have hcons : L.drop i = L[i] :: L.drop (i + 1) := List.drop_eq_getElem_cons hiL
    rw [hcons] at hdrop
    have hs : s = L[i] := (List.cons_eq_cons.1 hdrop).1
    have hrest : rest = L.drop (i + 1) := (List.cons_eq_cons.1 hdrop).2
    have hkeyi : key s = keyAt key L i := by
      rw [hs, keyAt, List.getD_eq_getElem L default hiL]
    simp only [firstMaxGo]
    by_cases hcmp : keyAt key L bi < key s
    · rw [if_pos hcmp]
      rw [hkeyi] at hcmp ⊢
      refine ih (i + 1) i hrest (Nat.lt_succ_self i) hiL ?_ ?_
      · intro j hj
        rcases Nat.lt_succ_iff_lt_or_eq.1 hj with hj2 | hj2
        · exact le_of_lt (lt_of_le_of_lt (hle j hj2) hcmp)
        · rw [hj2]
      · intro j hj hge
        rcases Nat.lt_succ_iff_lt_or_eq.1 hj with hj2 | hj2
        · exact absurd (lt_of_le_of_lt (le_trans hge (hle j hj2)) hcmp)
            (lt_irrefl _)
        · rw [hj2]
    · rw [if_neg hcmp]
      push_neg at hcmp
      rw [hkeyi] at hcmp
      refine ih (i + 1) bi hrest (Nat.lt_succ_of_lt hbi) hbiL ?_ ?_
      · intro j hj
        rcases Nat.lt_succ_iff_lt_or_eq.1 hj with hj2 | hj2
        · exact hle j hj2
        · rw [hj2]; exact hcmp
      · intro j hj _
        rcases Nat.lt_succ_iff_lt_or_eq.1 hj with hj2 | hj2
        · exact hfirst j hj2 (by assumption)
        · rw [hj2]; exact le_of_lt hbi

theorem firstMinGo_spec [LinearOrder β] [Inhabited α] (key : α → β)
    (L : List α) (rem : List α) :
    ∀ (i bi : Nat), rem = L.drop i → bi < i → bi < L.length →
      (∀ j < i, keyAt key L bi ≤ keyAt key L j) →
      (∀ j < i, keyAt key L j ≤ keyAt key L bi → bi ≤ j) →
      IsFirstMin key L (firstMinGo key rem i bi (keyAt key L bi)).1 := by
  induction rem with
  | nil =>
    intro i bi hdrop hbi hbiL hle hfirst
    have hlen : L.length ≤ i := by
      by_contra h
      push_neg at h
      rw [List.drop_eq_getElem_cons h] at hdrop
      exact List.cons_ne_nil _ _ hdrop.symm
    exact ⟨hbiL, fun j hj => hle j (lt_of_lt_of_le hj hlen),
           fun j hj => hfirst j (lt_of_lt_of_le hj hlen)⟩
  | cons s rest ih =>
    intro i bi hdrop hbi hbiL hle hfirst
    have hiL : i < L.length := by
      by_contra h
      push_neg at h
      rw [List.drop_eq_nil_of_le h] at hdrop
      exact List.cons_ne_nil _ _ hdrop
    have hcons : L.drop i = L[i] :: L.drop (i + 1) := List.drop_eq_getElem_cons hiL
    rw [hcons] at hdrop
    have hs : s = L[i] := (List.cons_eq_cons.1 hdrop).1
    have hrest : rest = L.drop (i + 1) := (List.cons_eq_cons.1 hdrop).2
    have hkeyi : key s = keyAt key L i := by
      rw [hs, keyAt, List.getD_eq_getElem L default hiL]
    simp only [firstMinGo]
    by_cases hcmp : key s < keyAt key L bi
    · rw [if_pos hcmp]
      rw [hkeyi] at hcmp ⊢
      refine ih (i + 1) i hrest (Nat.lt_succ_self i) hiL ?_ ?_
      · intro j hj
        rcases Nat.lt_succ_iff_lt_or_eq.1 hj with hj2 | hj2
        · exact le_of_lt (lt_of_lt_of_le hcmp (hle j hj2))
        · rw [hj2]
      · intro j hj hge
        rcases Nat.lt_succ_iff_lt_or_eq.1 hj with hj2 | hj2
        · exact absurd (lt_of_lt_of_le hcmp (le_trans (hle j hj2) hge))
            (lt_irrefl _)
        · rw [hj2]
    · rw [if_neg hcmp]
      push_neg at hcmp
      rw [hkeyi] at hcmp
      refine ih (i + 1) bi hrest (Nat.lt_succ_of_lt hbi) hbiL ?_ ?_
      · intro j hj
        rcases Nat.lt_succ_iff_lt_or_eq.1 hj with hj2 | hj2
        · exact hle j hj2
        · rw [hj2]; exact hcmp
      · intro j hj _
        rcases Nat.lt_succ_iff_lt_or_eq.1 hj with hj2 | hj2
        · exact hfirst j hj2 (by assumption)
        · rw [hj2]; exact le_of_lt hbi

theorem selectByScoreGo_eq (l : List Solution) :
    ∀ (i bi : Nat) (bs : ℚ), selectByScoreGo l i bi bs =
      firstMaxGo (fun s => s.verification_score) l i bi bs := by
  induction l with
  | nil => intro i bi bs; rfl
  | cons s rest ih =>
    intro i bi bs
    simp only [selectByScoreGo, firstMaxGo]
    split_ifs <;> apply ih

theorem selectByConfidenceGo_eq (l : List Solution) :
    ∀ (i bi : Nat) (bs : ℚ), selectByConfidenceGo l i bi bs =
      firstMaxGo confidenceOf l i bi bs := by
  induction l with
  | nil => intro i bi bs; rfl
  | cons s rest ih =>
    intro i bi bs
    simp only [selectByConfidenceGo, firstMaxGo]
    split_ifs <;> apply ih

theorem selectByThoroughnessGo_eq (l : List Solution) :
    ∀ (i bi bl : Nat), selectByThoroughnessGo l i bi bl =
      firstMaxGo (fun s => s.reasoning.length) l i bi bl := by
  induction l with
  | nil => intro i bi bl; rfl
  | cons s rest ih =>
    intro i bi bl
    simp only [selectByThoroughnessGo, firstMaxGo]
    split_ifs <;> apply ih

theorem selectByConcisenessGo_eq (l : List Solution) :
    ∀ (i bi bl : Nat), selectByConcisenessGo l i bi bl =
      firstMinGo (fun s => s.answer.length) l i bi bl := by
  induction l with
  | nil => intro i bi bl; rfl
  | cons s rest ih =>
    intro i bi bl
    simp only [selectByConcisenessGo, firstMinGo]
    split_ifs <;> apply ih

theorem confidenceOf_nonneg (s : Solution) (h : 0 ≤ s.verification_score) :
    0 ≤ confidenceOf s := by
  unfold confidenceOf
  have h2 : (0:ℚ) ≤ min ((s.reasoning.length : ℚ) / 1000) 1 :=
    le_min (by positivity) (by norm_num)
  linarith

theorem selectByScore_isFirstMax (s0 : Solution) (rest : List Solution) :
    IsFirstMax (fun s => s.verification_score) (s0 :: rest)
      (selectByScore (s0 :: rest)).1 := by
  have h0 : s0.verification_score =
      keyAt (fun s => s.verification_score) (s0 :: rest) 0 := rfl
  rw [selectByScore, selectByScoreGo_eq, h0]
  refine firstMaxGo_spec _ _ rest 1 0 rfl Nat.one_pos (by simp) ?_ ?_
  · intro j hj
    interval_cases j
    exact le_rfl
  · intro j hj _
    exact Nat.zero_le j

theorem selectByThoroughness_isFirstMax (s0 : Solution) (rest : List Solution) :
    IsFirstMax (fun s => s.reasoning.length) (s0 :: rest)
      (selectByThoroughness (s0 :: rest)).1 := by
  have h0 : s0.reasoning.length =
      keyAt (fun s => s.reasoning.length) (s0 :: rest) 0 := rfl
  have hgo : (selectByThoroughness (s0 :: rest)).1 =
      (firstMaxGo (fun s => s.reasoning.length) rest 1 0
        (keyAt (fun s => s.reasoning.length) (s0 :: rest) 0)).1 := by
    rw [selectByThoroughness, ← h0, ← selectByThoroughnessGo_eq]
  rw [hgo]
  refine firstMaxGo_spec _ _ rest 1 0 rfl Nat.one_pos (by simp) ?_ ?_
  · intro j hj
    interval_cases j
    exact le_rfl
  · intro j hj _
    exact Nat.zero_le j

theorem selectByConciseness_isFirstMin (s0 : Solution) (rest : List Solution) :
    IsFirstMin (fun s => s.answer.length) (s0 :: rest)
      (selectByConciseness (s0 :: rest)).1 := by
  have h0 : s0.answer.length =
      keyAt (fun s => s.answer.length) (s0 :: rest) 0 := rfl
  have hgo : (selectByConciseness (s0 :: rest)).1 =
      (firstMinGo (fun s => s.answer.length) rest 1 0
        (keyAt (fun s => s.answer.length) (s0 :: rest) 0)).1 := by
    rw [selectByConciseness, ← h0, ← selectByConcisenessGo_eq]
  rw [hgo]
  refine firstMinGo_spec _ _ rest 1 0 rfl Nat.one_pos (by simp) ?_ ?_
  · intro j hj
    interval_cases j
    exact le_rfl
  · intro j hj _
    exact Nat.zero_le j

theorem selectByConfidence_isFirstMax (s0 : Solution) (rest : List Solution)
    (hnn : ∀ s ∈ s0 :: rest, 0 ≤ s.verification_score) :
    IsFirstMax confidenceOf (s0 :: rest) (selectByConfidence (s0 :: rest)).1 := by
  have h0 : confidenceOf s0 = keyAt confidenceOf (s0 :: rest) 0 := rfl
  have hconf0 : 0 ≤ confidenceOf s0 :=
    confidenceOf_nonneg s0 (hnn s0 (List.mem_cons_self s0 rest))
  rw [selectByConfidence, selectByConfidenceGo_eq]
  simp only [firstMaxGo]
  by_cases hcmp : (0:ℚ) < confidenceOf s0
  · rw [if_pos hcmp, h0]
    refine firstMaxGo_spec _ _ rest 1 0 rfl Nat.one_pos (by simp) ?_ ?_
    · intro j hj
      interval_cases j
      exact le_rfl
    · intro j hj _
      exact Nat.zero_le j
  · rw [if_neg hcmp]
    have hzero : (0:ℚ) = confidenceOf s0 :=
      le_antisymm hconf0 (le_of_not_lt hcmp)
    rw [hzero, h0]
    refine firstMaxGo_spec _ _ rest 1 0 rfl Nat.one_pos (by simp) ?_ ?_
    · intro j hj
      interval_cases j
      exact le_rfl
    · intro j hj _
      exact Nat.zero_le j

theorem multiScores_length (sols : List Solution) :
    (multiScores sols).length = sols.length := by
  by_cases h1 : (0:ℚ) < sols.foldl (fun acc s => max acc s.verification_score) 0 <;>
  by_cases h2 : 0 < sols.foldl (fun acc s => max acc s.reasoning.length) 0 <;>
  by_cases h3 : 0 < sols.foldl (fun acc s => min acc s.answer.length) usizeMax <;>
    simp [multiScores, h1, h2, h3, List.length_zip]

theorem selectByMultiCriteria_isLastMax (s0 : Solution) (rest : List Solution) :
    IsLastMax (multiScores (s0 :: rest)) (selectByMultiCriteria (s0 :: rest)).1 := by
  have hlen : (multiScores (s0 :: rest)).length = (s0 :: rest).length :=
    multiScores_length (s0 :: rest)
  set scores := multiScores (s0 :: rest) with hscores
  have hne : scores ≠ [] := by
    intro h
    rw [h] at hlen
    simp at hlen
  obtain ⟨x, l, hxl⟩ : ∃ x l, scores.enum = x :: l := by
    cases henum : scores.enum with
    | nil =>
      exfalso
      have := List.enum_length (l := scores)
      rw [henum] at this
      exact hne (List.length_eq_zero.1 this.symm)
    | cons x l => exact ⟨x, l, rfl⟩
  have hfold := maxByFold_mem x l
  have hge := maxByFold_ge x l
  have hlast := maxByFold_last x l
  set r := l.foldl (fun acc y => if acc.2 ≤ y.2 then y else acc) x with hr
  have hrmem : r ∈ scores.enum := by rw [hxl]; exact hfold
  have hrget : scores[r.1]? = some r.2 := List.mem_enum_iff_getElem?.1 hrmem
  have hr1 : r.1 < scores.length := by
    by_contra h
    push_neg at h
    rw [List.getElem?_eq_none (by simpa using h)] at hrget
    exact Option.noConfusion hrget
  have hr2 : r.2 = scores.getD r.1 0 := by
    rw [List.getD_eq_getElem scores 0 hr1]
    have := List.getElem?_eq_getElem hr1
    rw [this] at hrget
    exact (Option.some.injEq _ _ ▸ hrget.symm)
  have hdef : selectByMultiCriteria (s0 :: rest) =
      (((maxByLast scores.enum).map Prod.fst).getD 0,
        scores.getD (((maxByLast scores.enum).map Prod.fst).getD 0) 0) := rfl
  have hsel : (selectByMultiCriteria (s0 :: rest)).1 = r.1 := by
    rw [hdef, hxl]
    simp [maxByLast, ← hr]
  rw [hsel]
  refine ⟨hr1, ?_, ?_⟩
  · intro j hj
    have hj2 : (j, scores.getD j 0) ∈ scores.enum := by
      rw [List.mem_enum_iff_getElem?]
      simp only
      rw [List.getD_eq_getElem scores 0 hj, List.getElem?_eq_getElem hj]
    have := hge (j, scores.getD j 0) (by rw [hxl] at hj2; exact hj2)
    rw [hr2] at this
    exact this
  · intro j hj hgej
    by_contra hlt
    push_neg at hlt
    obtain ⟨l1, l2, heq, hstrict⟩ := hlast
    have heq2 : scores.enum = l1 ++ r :: l2 := by rw [hxl]; exact heq
    have hpos : r.1 = l1.length := by
      have h0 : scores.enum[l1.length]? = some r := by
        rw [heq2, List.getElem?_append_right (le_refl l1.length)]
        simp
      rw [List.getElem?_enum] at h0
      cases hsc : scores[l1.length]? with
      | none => rw [hsc] at h0; simp at h0
      | some v =>
        rw [hsc] at h0
        simp only [Option.map_some', Option.some.injEq] at h0
        rw [← h0]
    have hjv : scores.enum[j]? = some (j, scores.getD j 0) := by
      rw [List.getElem?_enum, List.getElem?_eq_getElem hj,
        List.getD_eq_getElem scores 0 hj]
      rfl
    have hjin : (j, scores.getD j 0) ∈ l2 := by
      have h7 : scores.enum[j]? = l2[j - l1.length - 1]? := by
        rw [heq2, List.getElem?_append_right (by omega : l1.length ≤ j)]
        have h8 : j - l1.length = (j - l1.length - 1) + 1 := by omega
        rw [h8]
        simp
      rw [hjv] at h7
      exact List.getElem?_mem h7.symm
    have hlt2 := hstrict _ hjin
    simp only at hlt2
    rw [← hr2] at hgej
    exact absurd (lt_of_le_of_lt hgej hlt2) (lt_irrefl _)

/-- C2 (amended): for every non-empty candidate list with the invariant
`verification_score ≥ 0`, the Solution returned by `select_best_solution`
is a candidate with only its `verification_score` overwritten by the
selection score (so its `answer` is one of the candidates' answers), and
score ties are broken in favor of the FIRST-occurring candidate for
`BestScore`, `HighestConfidence`, `MostThorough` and `MostConcise` — but
`MultiCriteria` (implemented with `Iterator::max_by`) breaks ties in
favor of the LAST-occurring candidate. -/
theorem bestofn_selection_membership_and_tiebreaks
    (sols : List Solution) (hne : sols ≠ [])
    (hnn : ∀ s ∈ sols, 0 ≤ s.verification_score) :
    (∀ method best score,
        selectBestSolution sols method = .ok (best, score) →
        best = { sols.getD (selectIdxScore sols method).1 default with
                   verification_score := score } ∧
        best.answer ∈ sols.map Solution.answer) ∧
    IsFirstMax (fun s => s.verification_score) sols (selectByScore sols).1 ∧
    IsFirstMax confidenceOf sols (selectByConfidence sols).1 ∧
    IsFirstMax (fun s => s.reasoning.length) sols (selectByThoroughness sols).1 ∧
    IsFirstMin (fun s => s.answer.length) sols (selectByConciseness sols).1 ∧
    IsLastMax (multiScores sols) (selectByMultiCriteria sols).1 := by
  obtain ⟨s0, rest, rfl⟩ : ∃ s0 rest, sols = s0 :: rest := by
    cases sols with
    | nil => exact absurd rfl hne
    | cons s0 rest => exact ⟨s0, rest, rfl⟩
  have h1 := selectByScore_isFirstMax s0 rest
  have h2 := selectByConfidence_isFirstMax s0 rest hnn
  have h3 := selectByThoroughness_isFirstMax s0 rest
  have h4 := selectByConciseness_isFirstMin s0 rest
  have h5 := selectByMultiCriteria_isLastMax s0 rest
  refine ⟨?_, h1, h2, h3, h4, h5⟩
  intro method best score hsel
  have hidx : (selectIdxScore (s0 :: rest) method).1 < (s0 :: rest).length := by
    cases method with
    | bestScore => exact h1.1
    | highestConfidence => exact h2.1
    | mostThorough => exact h3.1
    | mostConcise => exact h4.1
    | multiCriteria =>
      have := h5.1
      rwa [multiScores_length] at this
  have hbest : best = { (s0 :: rest).getD (selectIdxScore (s0 :: rest) method).1
      default with verification_score := score } := by
    have hdef : selectBestSolution (s0 :: rest) method =
        .ok ({ (s0 :: rest).getD (selectIdxScore (s0 :: rest) method).1
                 default with
               verification_score := (selectIdxScore (s0 :: rest) method).2 },
             (selectIdxScore (s0 :: rest) method).2) := rfl
    rw [hdef] at hsel
    have hpair := Except.ok.inj hsel
    have hb := congrArg Prod.fst hpair
    have hs := congrArg Prod.snd hpair
    simp only at hb hs
    rw [← hb, ← hs]
  refine ⟨hbest, ?_⟩
  rw [hbest]
  have hmem : (s0 :: rest).getD (selectIdxScore (s0 :: rest) method).1 default ∈
      s0 :: rest := by
    rw [List.getD_eq_getElem _ default hidx]
    exact List.getElem_mem hidx
  exact List.mem_map.2 ⟨_, hmem, rfl⟩

/-- C2 witness: the amended theorem applied to a concrete two-candidate
list. -/
theorem bestofn_selection_membership_and_tiebreaks_witness :
    ([cexSolA, cexSolB] ≠ [] ∧
      ∀ s ∈ [cexSolA, cexSolB], 0 ≤ s.verification_score) ∧
    ((∀ method best score,
        selectBestSolution [cexSolA, cexSolB] method = .ok (best, score) →
        best = { [cexSolA, cexSolB].getD
            (selectIdxScore [cexSolA, cexSolB] method).1 default with
              verification_score := score } ∧
        best.answer ∈ [cexSolA, cexSolB].map Solution.answer) ∧
      IsFirstMax (fun s => s.verification_score) [cexSolA, cexSolB]
        (selectByScore [cexSolA, cexSolB]).1 ∧
      IsFirstMax confidenceOf [cexSolA, cexSolB]
        (selectByConfidence [cexSolA, cexSolB]).1 ∧
      IsFirstMax (fun s => s.reasoning.length) [cexSolA, cexSolB]
        (selectByThoroughness [cexSolA, cexSolB]).1 ∧
      IsFirstMin (fun s => s.answer.length) [cexSolA, cexSolB]
        (selectByConciseness [cexSolA, cexSolB]).1 ∧
      IsLastMax (multiScores [cexSolA, cexSolB])
        (selectByMultiCriteria [cexSolA, cexSolB]).1) :=
  ⟨⟨by decide, by decide⟩,
    bestofn_selection_membership_and_tiebreaks [cexSolA, cexSolB]
      (by decide) (by decide)⟩

/-- C2 counterexample: two candidates that tie under `MultiCriteria`
(both score `3/10`); the claim says the first-occurring candidate (answer
"42") must win the tie, but `select_best_solution` returns the second
(answer "43"). -/
theorem bestofn_multicriteria_tie_last_cex :
    multiScores [cexSolA, cexSolB] = [3/10, 3/10] ∧
    selectBestSolution [cexSolA, cexSolB] .multiCriteria =
      .ok ({ cexSolB with verification_score := 3/10 }, 3/10) ∧
    cexSolA.answer = "42" ∧ cexSolB.answer = "43" := by
  have hms : multiScores [cexSolA, cexSolB] = [3/10, 3/10] := by
    have h42 : "42".length = 2 := rfl
    have h43 : "43".length = 2 := rfl
    norm_num [multiScores, cexSolA, cexSolB, Solution.new, usizeMax,
      h42, h43, min_def, abs_zero]
  refine ⟨hms, ?_, rfl, rfl⟩
  have hsel : selectIdxScore [cexSolA, cexSolB] .multiCriteria = (1, 3/10) := by
    simp only [selectIdxScore, selectByMultiCriteria, hms]
    norm_num [maxByLast, List.enum, List.enumFrom]
  simp only [selectBestSolution, hsel]
  rfl

/-! ## C5 — self-consistency majority voting -/

/-- C5 (amended): for every non-empty path list and every duplicate-free
enumeration `order` of the vote-count map's keys (a Rust `HashMap`
iterates in an unspecified, per-map-randomized order), `majority_vote`
returns an extracted answer whose vote count is maximal — but the
tie-break among equally voted answers depends on the map's iteration
order (and `max_by_key` returns the LAST maximal entry of that order),
not on first appearance among the paths. -/
theorem selfconsistency_majority_returns_max
    (paths : List ReasoningPath) (order : List String)
    (hne : paths ≠ [])
    (hmem : ∀ a, a ∈ order ↔ a ∈ paths.map (fun p => p.extracted_answer)) :
    majorityVote paths order ∈ paths.map (fun p => p.extracted_answer) ∧
    ∀ b ∈ order,
      voteCount paths b ≤ voteCount paths (majorityVote paths order) := by
  obtain ⟨p0, prest, rfl⟩ : ∃ p0 prest, paths = p0 :: prest := by
    cases paths with
    | nil => exact absurd rfl hne
    | cons p0 prest => exact ⟨p0, prest, rfl⟩
  have homem : p0.extracted_answer ∈ order := (hmem _).2 (by simp)
  obtain ⟨o, os, rfl⟩ : ∃ o os, order = o :: os := by
    cases order with
    | nil => simp at homem
    | cons o os => exact ⟨o, os, rfl⟩
  have hdef : majorityVote (p0 :: prest) (o :: os) =
      ((os.map (fun a => (a, voteCount (p0 :: prest) a))).foldl
        (fun acc y => if acc.2 ≤ y.2 then y else acc)
        (o, voteCount (p0 :: prest) o)).1 := rfl
  set f : String → String × Nat :=
    fun a => (a, voteCount (p0 :: prest) a) with hf
  set r := (os.map f).foldl (fun acc y => if acc.2 ≤ y.2 then y else acc)
    (f o) with hr
  have hmem2 : r ∈ f o :: os.map f := maxByFold_mem (f o) (os.map f)
  have hmem3 : r ∈ (o :: os).map f := by simpa using hmem2
  obtain ⟨a, ha, hfa⟩ := List.mem_map.1 hmem3
  have hr1 : r.1 = a := by rw [← hfa]
  have hr2 : r.2 = voteCount (p0 :: prest) r.1 := by rw [← hfa]
  constructor
  · rw [hdef, hr1]
    exact (hmem a).1 ha
  · intro b hb
    have hble := maxByFold_ge (f o) (os.map f) (f b)
      (by simpa using List.mem_map_of_mem f hb)
    rw [← hr, hr2] at hble
    rw [hdef]
    exact hble

/-- C5 witness: the amended theorem applied to two concrete paths and a
concrete enumeration order. -/
theorem selfconsistency_majority_returns_max_witness :
    (cexPaths ≠ [] ∧
      ∀ a, a ∈ cexOrder ↔ a ∈ cexPaths.map (fun p => p.extracted_answer)) ∧
    (majorityVote cexPaths cexOrder ∈
        cexPaths.map (fun p => p.extracted_answer) ∧
      ∀ b ∈ cexOrder,
        voteCount cexPaths b ≤ voteCount cexPaths (majorityVote cexPaths cexOrder)) :=
  ⟨⟨by decide, by intro a; simp [cexPaths, cexOrder]⟩,
    selfconsistency_majority_returns_max cexPaths cexOrder (by decide)
      (by intro a; simp [cexPaths, cexOrder])⟩

/-- C5 counterexample: answers "42" and "43" tie at one vote each and
"42" appears first among the paths, yet under the legitimate map
iteration order `["42", "43"]` the claim-breaking answer "43" is
returned (so the first-appearance tie-break of the claim is false). -/
theorem selfconsistency_majority_tie_cex :
    cexPaths.map (fun p => p.extracted_answer) = ["42", "43"] ∧
    voteCount cexPaths "42" = 1 ∧ voteCount cexPaths "43" = 1 ∧
    cexOrder.Nodup ∧
    majorityVote cexPaths cexOrder = "43" := by
  refine ⟨by decide, by decide, by decide, by decide, by decide⟩

/-! ## C9 — CLI configuration loading -/

theorem lookup_filter_known (name : String) (hknown : name ∈ cliConfigKeys) :
    ∀ fields : List (String × Json),
      (fields.filter (fun f => f.1 ∈ cliConfigKeys)).lookup name =
        fields.lookup name := by
  intro fields
  induction fields with
  | nil => rfl
  | cons f rest ih =>
    by_cases hk : f.1 ∈ cliConfigKeys
    · rw [List.filter_cons_of_pos (by simpa using hk)]
      simp only [List.lookup]
      cases hbe : name == f.1 with
      | true => rfl
      | false => exact ih
    · rw [List.filter_cons_of_neg (by simpa using hk)]
      have hne2 : (name == f.1) = false :=
        beq_eq_false_iff_ne.2 (fun h => hk (h ▸ hknown))
      simp only [List.lookup, hne2]
      exact ih

theorem lookup_mem_pairs (name : String) (v : Json) :
    ∀ fields : List (String × Json),
      fields.lookup name = some v → (name, v) ∈ fields := by
  intro fields
  induction fields with
  | nil => intro h; simp [List.lookup] at h
  | cons f rest ih =>
    intro h
    by_cases hbe : name = f.1
    · have hbeq : (name == f.1) = true := beq_iff_eq.2 hbe
      simp only [List.lookup, hbeq] at h
      have h1 : f.2 = v := Option.some.inj h
      have h2 : (name, v) = f := by rw [hbe, ← h1]
      rw [h2]
      exact List.mem_cons_self f rest
    · have hbeq : (name == f.1) = false := beq_eq_false_iff_ne.2 hbe
      simp only [List.lookup, hbeq] at h
      exact List.mem_cons_of_mem f (ih h)

/-- C9 (amended): the derived deserializer of `Config` (no
`deny_unknown_fields`) silently IGNORES unknown keys — parsing an object
equals parsing the object restricted to the five known keys — and an
object containing only known, well-typed keys (all optional) loads
successfully. -/
theorem cli_config_unknown_keys_ignored
    (fields : List (String × Json))
    (hnd : (fields.map Prod.fst).Nodup) :
    configFromJson (.obj fields) =
      configFromJson (.obj (fields.filter (fun f => f.1 ∈ cliConfigKeys))) ∧
    ((∀ f ∈ fields, f.1 ∈ cliConfigKeys ∧ cliFieldOk f = true) →
      ∃ c, configFromJson (.obj fields) = .ok c) := by
  constructor
  · have hnd2 : ((fields.filter
        (fun f => f.1 ∈ cliConfigKeys)).map Prod.fst).Nodup := by
      have hsub : List.Sublist
          ((fields.filter (fun f => f.1 ∈ cliConfigKeys)).map Prod.fst)
          (fields.map Prod.fst) :=
        List.Sublist.map Prod.fst (List.filter_sublist fields)
      exact hnd.sublist hsub
    have g1 : getOptStr (fields.filter (fun f => f.1 ∈ cliConfigKeys))
        "api_key" = getOptStr fields "api_key" := by
      simp only [getOptStr, lookup_filter_known "api_key" (by decide) fields]
    have g2 : getOptStr (fields.filter (fun f => f.1 ∈ cliConfigKeys))
        "model" = getOptStr fields "model" := by
      simp only [getOptStr, lookup_filter_known "model" (by decide) fields]
    have g3 : getOptStr (fields.filter (fun f => f.1 ∈ cliConfigKeys))
        "api_base" = getOptStr fields "api_base" := by
      simp only [getOptStr, lookup_filter_known "api_base" (by decide) fields]
    have g4 : getOptStr (fields.filter (fun f => f.1 ∈ cliConfigKeys))
        "system_prompt" = getOptStr fields "system_prompt" := by
      simp only [getOptStr,
        lookup_filter_known "system_prompt" (by decide) fields]
    have g5 : getOptNat (fields.filter (fun f => f.1 ∈ cliConfigKeys))
        "timeout" = getOptNat fields "timeout" := by
      simp only [getOptNat, lookup_filter_known "timeout" (by decide) fields]
    simp only [configFromJson, if_pos hnd, if_pos hnd2, g1, g2, g3, g4, g5]
  · intro hok
    have hget : ∀ name, name ≠ "timeout" →
        ∃ v, getOptStr fields name = .ok v := by
      intro name hname
      cases hl : fields.lookup name with
      | none => exact ⟨none, by simp [getOptStr, hl]⟩
      | some v =>
        have hmem : (name, v) ∈ fields := lookup_mem_pairs _ _ fields hl
        have hok2 := (hok _ hmem).2
        cases v with
        | null => exact ⟨none, by simp [getOptStr, hl]⟩
        | str s => exact ⟨some s, by simp [getOptStr, hl]⟩
        | bool b => simp [cliFieldOk, hname] at hok2
        | num k => simp [cliFieldOk, hname] at hok2
        | arr xs => simp [cliFieldOk, hname] at hok2
        | obj fs => simp [cliFieldOk, hname] at hok2
    obtain ⟨v1, hv1⟩ := hget "api_key" (by decide)
    obtain ⟨v2, hv2⟩ := hget "model" (by decide)
    obtain ⟨v3, hv3⟩ := hget "api_base" (by decide)
    obtain ⟨v4, hv4⟩ := hget "system_prompt" (by decide)
    have hnat : ∃ v, getOptNat fields "timeout" = .ok v := by
      cases hl : fields.lookup "timeout" with
      | none => exact ⟨none, by simp [getOptNat, hl]⟩
      | some v =>
        have hmem : ("timeout", v) ∈ fields := lookup_mem_pairs _ _ fields hl
        have hok2 := (hok _ hmem).2
        cases v with
        | null => exact ⟨none, by simp [getOptNat, hl]⟩
        | num k =>
          have hk : (0:Int) ≤ k := by
            simpa [cliFieldOk] using hok2
          exact ⟨some k.toNat, by simp [getOptNat, hl, if_pos hk]⟩
        | bool b => simp [cliFieldOk] at hok2
        | str s => simp [cliFieldOk] at hok2
        | arr xs => simp [cliFieldOk] at hok2
        | obj fs => simp [cliFieldOk] at hok2
    obtain ⟨v5, hv5⟩ := hnat
    exact ⟨⟨v1, v2, v3, v4, v5⟩,
      by simp [configFromJson, if_pos hnd, hv1, hv2, hv3, hv4, hv5]⟩

/-- C9 witness: the amended theorem applied to a concrete object with an
unknown key and a concrete well-typed object with only known keys. -/
theorem cli_config_unknown_keys_ignored_witness :
    ((([("api_key", Json.str "k"), ("unknown_key", Json.num 1)].map
        Prod.fst).Nodup) ∧
      ([("api_key", Json.str "k"), ("timeout", Json.num 5)].map
        Prod.fst).Nodup ∧
      (∀ f ∈ [("api_key", Json.str "k"), ("timeout", Json.num 5)],
        f.1 ∈ cliConfigKeys ∧ cliFieldOk f = true)) ∧
    (configFromJson (.obj [("api_key", Json.str "k"),
        ("unknown_key", Json.num 1)]) =
      configFromJson (.obj ([("api_key", Json.str "k"),
        ("unknown_key", Json.num 1)].filter
          (fun f => f.1 ∈ cliConfigKeys)))) ∧
    (∃ c, configFromJson (.obj [("api_key", Json.str "k"),
        ("timeout", Json.num 5)]) = .ok c) :=
  ⟨⟨by decide, by decide, by
      intro f hf
      rcases List.mem_cons.1 hf with h | h
      · rw [h]; exact ⟨by decide, by decide⟩
      · rcases List.mem_cons.1 h with h2 | h2
        · rw [h2]; exact ⟨by decide, by decide⟩
        · simp at h2⟩,
    (cli_config_unknown_keys_ignored
      [("api_key", Json.str "k"), ("unknown_key", Json.num 1)]
      (by decide)).1,
    (cli_config_unknown_keys_ignored
      [("api_key", Json.str "k"), ("timeout", Json.num 5)]
      (by decide)).2
      (by
        intro f hf
        rcases List.mem_cons.1 hf with h | h
        · rw [h]; exact ⟨by decide, by decide⟩
        · rcases List.mem_cons.1 h with h2 | h2
          · rw [h2]; exact ⟨by decide, by decide⟩
          · simp at h2)⟩

/-- C9 counterexample: a configuration object with the unknown key
`unknown_key` parses SUCCESSFULLY (the unknown key is ignored), instead
of failing with `InvalidConfiguration` as the claim states. -/
theorem cli_config_unknown_key_accepted_cex :
    configFromJson (.obj [("api_key", .str "k"), ("unknown_key", .num 1)]) =
      .ok ⟨some "k", none, none, none, none⟩ := rfl

/-! ## C10 — MARS phase 3 verification -/

theorem mem_replaceById (upd : Solution) :
    ∀ (store : List Solution) (s : Solution),
      s ∈ replaceById store upd → s ∈ store ∨ s = upd := by
  intro store
  induction store with
  | nil => intro s h; simp [replaceById] at h
  | cons t rest ih =>
    intro s h
    simp only [replaceById] at h
    by_cases he : t.id = upd.id
    · rw [if_pos he] at h
      rcases List.mem_cons.1 h with h2 | h2
      · exact Or.inr h2
      · exact Or.inl (List.mem_cons_of_mem t h2)
    · rw [if_neg he] at h
      rcases List.mem_cons.1 h with h2 | h2
      · exact Or.inl (h2 ▸ List.mem_cons_self t rest)
      · rcases ih s h2 with h3 | h3
        · exact Or.inl (List.mem_cons_of_mem t h3)
        · exact Or.inr h3

/-- The at-most-one-verification property of a stored record. -/
def AtMostOneVerification (s : Solution) : Prop :=
  s.verification_passes + s.verification_failures ≤ 1 ∧
  meetsConsensus s 2 = false ∧ s.is_verified = false

theorem verifyOne_preserves (snap : Solution)
    (hsnap : snap.verification_passes = 0 ∧ snap.verification_failures = 0)
    (o : VerifyOutcome) (cur : List Solution)
    (hcur : ∀ s ∈ cur, AtMostOneVerification s) :
    ∀ s ∈ verifyOne snap o cur, AtMostOneVerification s := by
  intro s hs
  cases o with
  | err m => exact hcur s hs
  | ok c sc =>
    simp only [verifyOne] at hs
    rcases mem_replaceById _ cur s hs with h | h
    · exact hcur s h
    · rw [h]
      cases c with
      | true =>
        simp only [if_pos rfl]
        refine ⟨?_, ?_, ?_⟩
        · simp [Solution.add_verification_pass, hsnap.1, hsnap.2]
        · simp [meetsConsensus, Solution.add_verification_pass, hsnap.1]
        · simp [Solution.add_verification_pass, hsnap.1]
      | false =>
        rw [if_neg Bool.false_ne_true]
        refine ⟨?_, ?_, ?_⟩
        · simp [Solution.add_verification_failure, hsnap.1, hsnap.2]
        · simp [meetsConsensus, Solution.add_verification_failure, hsnap.2]
        · simp [Solution.add_verification_failure]

theorem phaseVerifyGo_preserves (outcomes : Nat → Fin 2 → VerifyOutcome)
    (orig : List Solution)
    (h0 : ∀ s ∈ orig, s.verification_passes = 0 ∧ s.verification_failures = 0) :
    ∀ (snaps : List (Nat × Solution)) (cur : List Solution),
      (∀ p ∈ snaps, p.2 ∈ orig) →
      (∀ s ∈ cur, AtMostOneVerification s) →
      ∀ s ∈ phaseVerifyGo outcomes snaps cur, AtMostOneVerification s := by
  intro snaps
  induction snaps with
  | nil => intro cur _ hcur s hs; exact hcur s hs
  | cons p rest ih =>
    intro cur hsnap hcur s hs
    simp only [phaseVerifyGo] at hs
    have hp2 : p.2 ∈ orig := hsnap p (List.mem_cons_self p rest)
    have h1 := verifyOne_preserves p.2 (h0 p.2 hp2) (outcomes p.1 0) cur hcur
    have h2 := verifyOne_preserves p.2 (h0 p.2 hp2) (outcomes p.1 1) _ h1
    exact ih _ (fun q hq => hsnap q (List.mem_cons_of_mem p hq)) h2 s hs

/-- C10: after MARS Phase 3 over a workspace whose solutions enter the
phase with fresh verification state (zero passes, zero failures, not
verified — as produced by phases 1–2), every stored solution has
`verification_passes + verification_failures ≤ 1`: each of the two
verifier agents clones the phase-start snapshot, so the second replace
overwrites the first.  Consequently no stored solution can satisfy
`meets_consensus` at the default threshold 2, nor be flagged verified. -/
theorem mars_phase3_at_most_one_verification
    (outcomes : Nat → Fin 2 → VerifyOutcome) (store : List Solution)
    (h0 : ∀ s ∈ store, s.verification_passes = 0 ∧
      s.verification_failures = 0 ∧ s.is_verified = false) :
    ∀ s ∈ phaseVerification outcomes store,
      s.verification_passes + s.verification_failures ≤ 1 ∧
      meetsConsensus s 2 = false ∧ s.is_verified = false := by
  intro s hs
  have h0' : ∀ s ∈ store, s.verification_passes = 0 ∧
      s.verification_failures = 0 :=
    fun s hs2 => ⟨(h0 s hs2).1, (h0 s hs2).2.1⟩
  have hinit : ∀ s ∈ store, AtMostOneVerification s := by
    intro s hs2
    refine ⟨?_, ?_, (h0 s hs2).2.2⟩
    · rw [(h0 s hs2).1, (h0 s hs2).2.1]
      norm_num
    · simp [meetsConsensus, (h0 s hs2).1]
  have hsnaps : ∀ p ∈ store.enum, p.2 ∈ store := by
    intro p hp
    have := List.mem_enum_iff_getElem?.1 hp
    exact List.getElem?_mem this
  exact phaseVerifyGo_preserves outcomes store h0' store.enum store hsnaps
    hinit s hs

/-! ## C6 — RTO short-circuit -/

/-- C6: when the fenced code extracted from C1 and from C2 is equal after
whitespace normalization, no synthesis call is made: the run returns
with `solutions_differed = false`, `synthesized_solution = None`, the
returned solution's answer equal to the raw initial solution C1, and
`total_tokens = tokens(C1) + tokens(Q2) + tokens(C2)`. -/
theorem rto_shortcircuit_on_equal_code
    (config : RTOConfig) (streams : Nat → List EvItem)
    (c1 q2 c2 : String) (t1 t2 t3 : Nat)
    (hval : config.validate = .ok ())
    (h1 : rtoCollect (streams 0) "" 0 = .ok (c1, t1))
    (h2 : rtoCollect (streams 1) "" 0 = .ok (q2, t2))
    (h3 : rtoCollect (streams 2) "" 0 = .ok (c2, t3))
    (hsame : normalizeWs (extractCode c1) = normalizeWs (extractCode c2)) :
    runRto config streams =
      .ok (Solution.new "rto" "RTO: C1 -> Q2 -> C2 -> Final" c1
             config.initial_temperature (t1 + t2 + t3 + 0),
        { total_tokens := t1 + t2 + t3 + 0
          initial_solution := c1
          description := q2
          second_solution := c2
          solutions_differed := false
          synthesized_solution := none }) := by
  have hdiff : solutionsDiffer c1 c2 = false := by
    simp [solutionsDiffer, hsame]
  unfold runRto
  rw [hval, h1, h2, h3]
  simp [hdiff]

/-- C6 witness: the theorem applied to a concrete configuration and a
mock backend whose C1 and C2 responses carry the same fenced code up to
whitespace. -/
theorem rto_shortcircuit_on_equal_code_witness :
    (wRtoConfig.validate = .ok () ∧
      rtoCollect (wRtoStreams 0) "" 0 =
        .ok ("```\nlet x = 1\n```", 3) ∧
      rtoCollect (wRtoStreams 1) "" 0 = .ok ("write an assignment", 7) ∧
      rtoCollect (wRtoStreams 2) "" 0 =
        .ok ("```rust\nlet  x  =  1\n```", 11) ∧
      normalizeWs (extractCode "```\nlet x = 1\n```") =
        normalizeWs (extractCode "```rust\nlet  x  =  1\n```")) ∧
    runRto wRtoConfig wRtoStreams =
      .ok (Solution.new "rto" "RTO: C1 -> Q2 -> C2 -> Final"
             "```\nlet x = 1\n```" wRtoConfig.initial_temperature
             (3 + 7 + 11 + 0),
        { total_tokens := 3 + 7 + 11 + 0
          initial_solution := "```\nlet x = 1\n```"
          description := "write an assignment"
          second_solution := "```rust\nlet  x  =  1\n```"
          solutions_differed := false
          synthesized_solution := none }) :=
  ⟨⟨rfl, rfl, rfl, rfl, rfl⟩,
    rto_shortcircuit_on_equal_code wRtoConfig wRtoStreams
      "```\nlet x = 1\n```" "write an assignment"
      "```rust\nlet  x  =  1\n```" 3 7 11 rfl rfl rfl rfl rfl⟩

/-! ## C1 — token accounting -/

theorem bestOfNCollect_tokens :
    ∀ (events : List EvItem) (text : String) (tokens : Nat) (p : String × Nat),
      bestOfNCollect events text tokens = .ok p →
      p.2 = tokens + usageSum events := by
  intro events
  induction events with
  | nil =>
    intro text tokens p h
    simp only [bestOfNCollect] at h
    rw [← (Except.ok.inj h)]
    simp [usageSum]
  | cons e rest ih =>
    intro text tokens p h
    cases e with
    | error m => simp [bestOfNCollect] at h
    | ok ev =>
      cases ev with
      | outputTextDelta d =>
        simp only [bestOfNCollect] at h
        rw [ih _ _ _ h]
        simp [usageSum]
      | completed u =>
        cases u with
        | none =>
          simp only [bestOfNCollect] at h
          rw [ih _ _ _ h]
          simp [usageSum]
        | some usage =>
          simp only [bestOfNCollect] at h
          rw [ih _ _ _ h]
          simp [usageSum]
          omega

theorem runBestOfNGo_tokens (streams : Nat → List EvItem) :
    ∀ (l : List (Nat × ℚ)) (sols : List Solution) (tokens : Nat)
      (p : List Solution × Nat),
      runBestOfNGo streams l sols tokens = .ok p →
      p.2 = tokens + (l.map (fun q => usageSum (streams q.1))).sum := by
  intro l
  induction l with
  | nil =>
    intro sols tokens p h
    simp only [runBestOfNGo] at h
    rw [← (Except.ok.inj h)]
    simp
  | cons q rest ih =>
    obtain ⟨idx, temp⟩ := q
    intro sols tokens p h
    simp only [runBestOfNGo] at h
    split at h
    · simp at h
    · rename_i text tokens2 hc
      have h2 := ih _ _ _ h
      have h3 := bestOfNCollect_tokens (streams idx) "" tokens
        (text, tokens2) hc
      simp only at h3
      rw [h2, h3]
      simp only [List.map_cons, List.sum_cons]
      omega

theorem moaCollect_tokens (fb : Bool) :
    ∀ (events : List EvItem) (resp : String) (tokens : Nat)
      (p : String × Nat × Bool),
      moaCollect fb events resp tokens = .ok p →
      p.2.1 = tokens + leadingDeltas events := by
  intro events
  induction events with
  | nil =>
    intro resp tokens p h
    simp only [moaCollect] at h
    rw [← (Except.ok.inj h)]
    simp [leadingDeltas]
  | cons e rest ih =>
    intro resp tokens p h
    cases e with
    | error m =>
      simp only [moaCollect] at h
      cases fb with
      | true =>
        rw [if_pos rfl] at h
        rw [← (Except.ok.inj h)]
        simp [leadingDeltas, List.takeWhile]
      | false =>
        rw [if_neg Bool.false_ne_true] at h
        simp at h
    | ok ev =>
      cases ev with
      | outputTextDelta d =>
        simp only [moaCollect] at h
        rw [ih _ _ _ h]
        simp [leadingDeltas, List.takeWhile]
        omega
      | completed u =>
        simp only [moaCollect] at h
        rw [← (Except.ok.inj h)]
        simp [leadingDeltas, List.takeWhile]

theorem moaPhase1Go_tokens (streams : Nat → List EvItem) (fb : Bool) :
    ∀ (l : List Nat) (comps : List String) (tokens : Nat) (flag : Bool)
      (p : List String × Nat × Bool),
      moaPhase1Go streams fb l comps tokens flag = .ok p →
      p.2.1 = tokens + (l.map (fun i => leadingDeltas (streams i))).sum := by
  intro l
  induction l with
  | nil =>
    intro comps tokens flag p h
    simp only [moaPhase1Go] at h
    rw [← (Except.ok.inj h)]
    simp
  | cons i rest ih =>
    intro comps tokens flag p h
    simp only [moaPhase1Go] at h
    split at h
    · simp at h
    · rename_i resp tokens2 fbUsed hc
      have h2 := ih _ _ _ _ h
      have h3 := moaCollect_tokens fb (streams i) "" tokens
        (resp, tokens2, fbUsed) hc
      simp only at h3
      rw [h2, h3]
      simp only [List.map_cons, List.sum_cons]
      omega

theorem moaPhase23Collect_tokens :
    ∀ (events : List EvItem) (resp : String) (tokens : Nat)
      (p : String × Nat),
      moaPhase23Collect events resp tokens = .ok p →
      p.2 = tokens + leadingDeltas events := by
  intro events
  induction events with
  | nil =>
    intro resp tokens p h
    simp only [moaPhase23Collect] at h
    rw [← (Except.ok.inj h)]
    simp [leadingDeltas]
  | cons e rest ih =>
    intro resp tokens p h
    cases e with
    | error m => simp [moaPhase23Collect] at h
    | ok ev =>
      cases ev with
      | outputTextDelta d =>
        simp only [moaPhase23Collect] at h
        rw [ih _ _ _ h]
        simp [leadingDeltas, List.takeWhile]
        omega
      | completed u =>
        simp only [moaPhase23Collect] at h
        rw [← (Except.ok.inj h)]
        simp [leadingDeltas, List.takeWhile]

/-- C1 (amended): Best-of-N's `BestOfNMetadata.total_tokens` equals the
sum, over the streams consumed, of `usage.total_tokens()` of every
`Completed` event carrying usage — as the claim states.  MOA's
`MoaMetadata.total_tokens`, however, is a "rough estimate" counting ONE
token per `OutputTextDelta` processed (each MOA stream loop stops at its
first non-delta item) and ignoring `Completed` usage entirely. -/
theorem strategy_total_tokens_accounting :
    (∀ (temps : List ℚ) (n : Nat) (method : SelectionMethod)
        (streams : Nat → List EvItem) (sol : Solution) (md : BestOfNMetadata),
      runBestOfN temps n method streams = .ok (sol, md) →
      md.total_tokens =
        (((temps.take n).enum).map (fun p => usageSum (streams p.1))).sum) ∧
    (∀ (n : Nat) (fb : Bool) (streams : Nat → List EvItem)
        (sol : Solution) (md : MoaMetadata),
      runMoa n fb streams = .ok (sol, md) →
      md.total_tokens =
        ((List.range n).map (fun i => leadingDeltas (streams i))).sum +
          leadingDeltas (streams n) + leadingDeltas (streams (n + 1))) := by
  constructor
  · intro temps n method streams sol md h
    simp only [runBestOfN] at h
    split at h
    · simp at h
    · rename_i sols total hg
      split at h
      · simp at h
      · split at h
        · simp at h
        · rename_i best score hsel
          have hmd : md.total_tokens = total := by
            have hpair := Except.ok.inj h
            have h2 := congrArg Prod.snd hpair
            simp only at h2
            rw [← h2]
          rw [hmd]
          have h3 := runBestOfNGo_tokens streams (temps.take n).enum [] 0
            (sols, total) hg
          simpa using h3
  · intro n fb streams sol md h
    simp only [runMoa] at h
    split at h
    · simp at h
    · rename_i comps p1 fbflag hp1
      split at h
      · simp at h
      · rename_i critique p2 hp2
        split at h
        · simp at h
        · rename_i finalAnswer p3 hp3
          have hmd : md.total_tokens = p1 + p2 + p3 := by
            have hpair := Except.ok.inj h
            have h2 := congrArg Prod.snd hpair
            simp only at h2
            rw [← h2]
          have e1 : p1 = ((List.range n).map
              (fun i => leadingDeltas (streams i))).sum := by
            simp only [moaPhase1] at hp1
            split at hp1
            · simp at hp1
            · rename_i gcomps gtok gfb hg
              split at hp1
              · simp at hp1
              · have hpair := Except.ok.inj hp1
                have h2 := congrArg (fun x => x.2.1) hpair
                simp only at h2
                have h3 := moaPhase1Go_tokens streams fb (List.range n) [] 0
                  false (gcomps, gtok, gfb) hg
                simp only at h3
                rw [← h2, h3]
                simp
          have e2 : p2 = leadingDeltas (streams n) := by
            simp only [moaCritique] at hp2
            split at hp2
            · simp at hp2
            · split at hp2
              · simp at hp2
              · rename_i ctext ctok hc
                split at hp2
                · simp at hp2
                · have hpair := Except.ok.inj hp2
                  have h2 := congrArg Prod.snd hpair
                  simp only at h2
                  have h3 := moaPhase23Collect_tokens (streams n) "" 0
                    (ctext, ctok) hc
                  simp only at h3
                  rw [← h2, h3]
                  simp
          have e3 : p3 = leadingDeltas (streams (n + 1)) := by
            simp only [moaSynthesis] at hp3
            split at hp3
            · simp at hp3
            · split at hp3
              · simp at hp3
              · rename_i stext stok hc
                split at hp3
                · simp at hp3
                · have hpair := Except.ok.inj hp3
                  have h2 := congrArg Prod.snd hpair
                  simp only at h2
                  have h3 := moaPhase23Collect_tokens (streams (n + 1)) "" 0
                    (stext, stok) hc
                  simp only at h3
                  rw [← h2, h3]
                  simp
          rw [hmd, e1, e2, e3]

/-- C1 witness: the amended theorem applied to concrete one-candidate
Best-of-N and three-completion MOA runs. -/
theorem strategy_total_tokens_accounting_witness :
    (runBestOfN wBonTemps 1 .bestScore wBonStreams = .ok wBonPair ∧
      runMoa 3 false wMoaStreams = .ok wMoaPair) ∧
    wBonPair.2.total_tokens =
      (((wBonTemps.take 1).enum).map
        (fun p => usageSum (wBonStreams p.1))).sum ∧
    wMoaPair.2.total_tokens =
      ((List.range 3).map (fun i => leadingDeltas (wMoaStreams i))).sum +
        leadingDeltas (wMoaStreams 3) + leadingDeltas (wMoaStreams 4) :=
  ⟨⟨rfl, rfl⟩,
    strategy_total_tokens_accounting.1 wBonTemps 1 .bestScore wBonStreams
      wBonPair.1 wBonPair.2 rfl,
    strategy_total_tokens_accounting.2 3 false wMoaStreams
      wMoaPair.1 wMoaPair.2 rfl⟩

/-- C1 counterexample: a MOA run over streams each yielding one delta
and a `Completed` with usage `5 + 7 = 12` tokens.  The claim demands
`total_tokens = 60` (five streams, each observing one such `Completed`),
but `MoaMetadata.total_tokens` is `5` — one per delta. -/
theorem moa_total_tokens_cex :
    (runMoa 3 false cexMoaStreams).map (fun p => p.2.total_tokens) =
      .ok 5 ∧
    ((List.range 5).map (fun i => usageSum (cexMoaStreams i))).sum = 60 :=
  ⟨rfl, rfl⟩
theorem mars_phase3_at_most_one_verification_witness :
    (∀ s ∈ [Solution.new "a1" "r" "42" 0 0, Solution.new "a2" "r" "43" 0 0],
      s.verification_passes = 0 ∧ s.verification_failures = 0 ∧
        s.is_verified = false) ∧
    (∀ s ∈ phaseVerification (fun _ _ => .ok true (9/10))
        [Solution.new "a1" "r" "42" 0 0, Solution.new "a2" "r" "43" 0 0],
      s.verification_passes + s.verification_failures ≤ 1 ∧
      meetsConsensus s 2 = false ∧ s.is_verified = false) :=
  ⟨by decide,
    mars_phase3_at_most_one_verification (fun _ _ => .ok true (9/10))
      [Solution.new "a1" "r" "42" 0 0, Solution.new "a2" "r" "43" 0 0]
      (by decide)⟩

/-! ## C8 — Ollama stream event ordering -/

theorem lineEvents_no_err (st : Nat × Nat) (r : OllamaResponse) :
    ∀ e ∈ (lineEvents st r).1, isErrItem e = false := by
  rcases r with ⟨m, d, pe, ec⟩
  intro e he
  cases d <;> cases m
  · simp [lineEvents] at he
  · rename_i c
    by_cases hc : c = "" <;> simp [lineEvents, hc] at he
    rw [he]; rfl
  · simp [lineEvents] at he
    rw [he]; rfl
  · rename_i c
    by_cases hc : c = "" <;> simp [lineEvents, hc] at he
    · rw [he]; rfl
    · rcases he with h | h <;> rw [h] <;> rfl

theorem tailEvents_no_err (st : Nat × Nat) (r : OllamaResponse) :
    ∀ e ∈ tailEvents st r, isErrItem e = false := by
  rcases r with ⟨m, d, pe, ec⟩
  intro e he
  cases m
  · simp [tailEvents] at he
    rw [he]; rfl
  · rename_i c
    by_cases hc : c = "" <;> simp [tailEvents, hc] at he
    · rw [he]; rfl
    · rcases he with h | h <;> rw [h] <;> rfl

theorem errorsTerminal_append (xs ys : List EvItem)
    (hx : ∀ e ∈ xs, isErrItem e = false) :
    errorsTerminal (xs ++ ys) = errorsTerminal ys := by
  induction xs with
  | nil => rfl
  | cons e rest ih =>
    simp only [List.cons_append, errorsTerminal,
      hx e (List.mem_cons_self e rest), if_neg Bool.false_ne_true]
    exact ih (fun e2 he2 => hx e2 (List.mem_cons_of_mem e he2))

theorem errorsTerminal_processToks (parse : String → Option OllamaResponse) :
    ∀ (toks : List Tok) (st : Nat × Nat),
      errorsTerminal (processToks parse toks st) = true := by
  intro toks
  induction toks with
  | nil => intro st; rfl
  | cons t rest ih =>
    intro st
    cases t with
    | terr msg => rfl
    | line l =>
      simp only [processToks]
      by_cases hb : strTrim l = ""
      · rw [if_pos hb]
        exact ih st
      · rw [if_neg hb]
        cases hp : parse (strTrim l) with
        | none => rfl
        | some r =>
          show errorsTerminal ((lineEvents st r).1 ++
            processToks parse rest (lineEvents st r).2) = true
          rw [errorsTerminal_append _ _ (lineEvents_no_err st r)]
          exact ih _
    | tailLine l =>
      simp only [processToks]
      cases hp : parse (strTrim l) with
      | none => rfl
      | some r =>
        show errorsTerminal (tailEvents st r) = true
        have h2 := errorsTerminal_append (tailEvents st r) []
          (tailEvents_no_err st r)
        rw [List.append_nil] at h2
        rw [h2]
        rfl

theorem countCompleted_append (xs ys : List EvItem) :
    countCompleted (xs ++ ys) = countCompleted xs + countCompleted ys := by
  simp [countCompleted, List.filter_append]

theorem countCompleted_lineEvents (st : Nat × Nat) (r : OllamaResponse) :
    countCompleted (lineEvents st r).1 = if r.done then 1 else 0 := by
  rcases r with ⟨m, d, pe, ec⟩
  cases d <;> cases m <;> simp [lineEvents, countCompleted]

theorem countCompleted_tailEvents (st : Nat × Nat) (r : OllamaResponse) :
    countCompleted (tailEvents st r) = 1 := by
  rcases r with ⟨m, d, pe, ec⟩
  cases m <;> simp [tailEvents, countCompleted]

theorem processToks_completed_bound (parse : String → Option OllamaResponse) :
    ∀ (toks : List Tok) (st : Nat × Nat),
      countCompleted (processToks parse toks st) ≤
        (toks.filter (isDoneTok parse)).length := by
  intro toks
  induction toks with
  | nil => intro st; exact Nat.le_refl 0
  | cons t rest ih =>
    intro st
    cases t with
    | terr msg =>
      exact Nat.zero_le _
    | line l =>
      rw [List.filter_cons]
      simp only [processToks]
      by_cases hb : strTrim l = ""
      · rw [if_pos hb]
        have hdt : isDoneTok parse (Tok.line l) = false := by
          simp [isDoneTok, hb]
        rw [hdt, if_neg Bool.false_ne_true]
        exact ih st
      · rw [if_neg hb]
        cases hp : parse (strTrim l) with
        | none =>
          exact Nat.zero_le _
        | some r =>
          have hdt : isDoneTok parse (Tok.line l) = r.done := by
            simp [isDoneTok, hb, hp]
          rw [hdt]
          show countCompleted ((lineEvents st r).1 ++
            processToks parse rest (lineEvents st r).2) ≤ _
          rw [countCompleted_append, countCompleted_lineEvents]
          have hr := ih (lineEvents st r).2
          cases hdone : r.done
          · rw [if_neg Bool.false_ne_true, if_neg Bool.false_ne_true]
            simpa using hr
          · rw [if_pos rfl, if_pos rfl, List.length_cons]
            omega
    | tailLine l =>
      rw [List.filter_cons]
      simp only [processToks]
      cases hp : parse (strTrim l) with
      | none =>
        exact Nat.zero_le _
      | some r =>
        have hdt : isDoneTok parse (Tok.tailLine l) = true := by
          simp [isDoneTok, hp]
        rw [hdt, if_pos rfl, List.length_cons]
        show countCompleted (tailEvents st r) ≤ _
        rw [countCompleted_tailEvents]
        omega

/-- C8 (amended): error items of the stream — a transport error or a
parse failure, each yielding exactly one error item — are terminal:
nothing follows an error item (so there is at most one, and no
`Completed` after it).  `Completed`, however, is NOT unique or last in
general: the loop emits one `Completed` per parsed line whose `done` is
true and keeps processing (it never breaks on `done`), and a trailing
unterminated line that parses emits a `Completed` unconditionally; the
number of `Completed` items is bounded by the number of such
done-marked units. -/
theorem ollama_stream_errors_terminal_and_completed_bound
    (parse : String → Option OllamaResponse)
    (chunks : List (Except String String)) :
    errorsTerminal (ollamaStreamItems parse chunks) = true ∧
    countCompleted (ollamaStreamItems parse chunks) ≤
      ((tokenize chunks []).filter (isDoneTok parse)).length :=
  ⟨errorsTerminal_processToks parse (tokenize chunks []) (0, 0),
   processToks_completed_bound parse (tokenize chunks []) (0, 0)⟩

/-- C8 counterexample: with a body of two `done` lines the stream emits
TWO `Completed` events, the first of which is not last (a delta and
another `Completed` follow); and a transport error after a `done` line
yields a sequence holding a `Completed` event followed by the error
item.  Both refute the claimed at-most-one-`Completed`-and-last /
no-`Completed`-on-error behaviour. -/
theorem ollama_stream_multiple_completed_cex :
    countCompleted (ollamaStreamItems cexOllamaParse [.ok "D\nD\n"]) = 2 ∧
    ollamaStreamItems cexOllamaParse [.ok "D\n", .error "boom"] =
      [.ok (.outputTextDelta "hi"), .ok (.completed (some ⟨7, 5⟩)),
       .error "Failed to read response stream: boom"] :=
  ⟨rfl, rfl⟩

/-! ## C3 — MCTS root visit count

The arena invariant `ArenaWf` is preserved by every search step, and
one backpropagation walks the strictly-decreasing parent chain from the
simulated node to the root, adding exactly one visit to the root. -/

theorem getD_set_self (l : List MCTSNode) (i : Nat) (a : MCTSNode)
    (h : i < l.length) : (l.set i a).getD i default = a := by
  simp [List.getD_eq_getElem?_getD, List.getElem?_set_self, h]

theorem getD_set_ne (l : List MCTSNode) (i j : Nat) (a : MCTSNode)
    (h : i ≠ j) : (l.set i a).getD j default = l.getD j default := by
  simp [List.getD_eq_getElem?_getD, List.getElem?_set_ne, h]

theorem getD_append_left (l m : List MCTSNode) (j : Nat) (h : j < l.length) :
    (l ++ m).getD j default = l.getD j default := by
  simp [List.getD_eq_getElem?_getD, List.getElem?_append_left, h]

theorem getD_append_self (l : List MCTSNode) (a : MCTSNode) :
    (l ++ [a]).getD l.length default = a := by
  simp [List.getD_eq_getElem?_getD]

theorem get?_eq_some_getD (l : List MCTSNode) (i : Nat) (h : i < l.length) :
    l.get? i = some (l.getD i default) := by
  rw [List.getD_eq_getElem?_getD, List.getElem?_eq_getElem h]
  rw [List.get?_eq_getElem?, List.getElem?_eq_getElem h]
  rfl

theorem getD_of_get?_eq_some {l : List MCTSNode} {i : Nat} {n : MCTSNode}
    (h : l.get? i = some n) : l.getD i default = n := by
  rw [List.getD_eq_getElem?_getD, ← List.get?_eq_getElem?, h]
  rfl

theorem lt_length_of_get?_eq_some {l : List MCTSNode} {i : Nat} {n : MCTSNode}
    (h : l.get? i = some n) : i < l.length := by
  by_contra hc
  push_neg at hc
  rw [List.get?_eq_none.2 hc] at h
  exact Option.noConfusion h

theorem natList_getD_mem (l : List Nat) (i : Nat) (h : i < l.length) :
    l.getD i 0 ∈ l := by
  rw [List.getD_eq_getElem?_getD, List.getElem?_eq_getElem h]
  exact List.getElem_mem h

theorem arenaWf_set_same_shape (nodes : List MCTSNode) (i : Nat)
    (a : MCTSNode) (hi : i < nodes.length)
    (hpa : a.parent = (nodes.getD i default).parent)
    (hca : a.children = (nodes.getD i default).children)
    (hwf : ArenaWf nodes) : ArenaWf (nodes.set i a) := by
  obtain ⟨h1, h2, h3, h4, h5⟩ := hwf
  refine ⟨by simpa [List.length_set] using h1, ?_, ?_, ?_, ?_⟩
  · by_cases h : i = 0
    · subst h
      rw [getD_set_self _ _ _ hi, hpa]
      exact h2
    · rw [getD_set_ne _ _ _ _ h]
      exact h2
  · intro j hj p hpj
    rw [List.length_set] at hj
    by_cases h : i = j
    · subst h
      rw [getD_set_self _ _ _ hi, hpa] at hpj
      exact h3 i hj p hpj
    · rw [getD_set_ne _ _ _ _ h] at hpj
      exact h3 j hj p hpj
  · intro j hj hj0
    rw [List.length_set] at hj
    by_cases h : i = j
    · subst h
      rw [getD_set_self _ _ _ hi, hpa]
      exact h4 i hj hj0
    · rw [getD_set_ne _ _ _ _ h]
      exact h4 j hj hj0
  · intro j hj c hcj
    rw [List.length_set] at hj
    rw [List.length_set]
    by_cases h : i = j
    · subst h
      rw [getD_set_self _ _ _ hi, hca] at hcj
      exact h5 i hj c hcj
    · rw [getD_set_ne _ _ _ _ h] at hcj
      exact h5 j hj c hcj

theorem backpropagate_get_none (v : ℚ) (fuel : Nat) (nodes : List MCTSNode)
    (idx : Nat) (hg : nodes.get? idx = none) :
    backpropagate v (fuel + 1) nodes idx = nodes := by
  simp only [backpropagate]
  rw [hg]

theorem backpropagate_succ_some (v : ℚ) (fuel : Nat) (nodes : List MCTSNode)
    (idx : Nat) (n : MCTSNode) (hg : nodes.get? idx = some n) :
    backpropagate v (fuel + 1) nodes idx =
      match n.parent with
      | none =>
        nodes.set idx { n with visits := n.visits + 1, value := n.value + v }
      | some p =>
        backpropagate v fuel
          (nodes.set idx { n with visits := n.visits + 1, value := n.value + v })
          p := by
  simp only [backpropagate]
  rw [hg]

theorem backpropagate_succ_none (v : ℚ) (fuel : Nat) (nodes : List MCTSNode)
    (idx : Nat) (n : MCTSNode) (hg : nodes.get? idx = some n)
    (hp : n.parent = none) :
    backpropagate v (fuel + 1) nodes idx =
      nodes.set idx { n with visits := n.visits + 1, value := n.value + v } := by
  rw [backpropagate_succ_some v fuel nodes idx n hg, hp]

theorem backpropagate_succ_parent (v : ℚ) (fuel : Nat) (nodes : List MCTSNode)
    (idx : Nat) (n : MCTSNode) (p : Nat) (hg : nodes.get? idx = some n)
    (hp : n.parent = some p) :
    backpropagate v (fuel + 1) nodes idx =
      backpropagate v fuel
        (nodes.set idx { n with visits := n.visits + 1, value := n.value + v })
        p := by
  rw [backpropagate_succ_some v fuel nodes idx n hg, hp]

theorem backpropagate_length (v : ℚ) :
    ∀ (fuel : Nat) (nodes : List MCTSNode) (idx : Nat),
      (backpropagate v fuel nodes idx).length = nodes.length := by
  intro fuel
  induction fuel with
  | zero => intro nodes idx; rfl
  | succ fuel ih =>
    intro nodes idx
    cases hg : nodes.get? idx with
    | none => rw [backpropagate_get_none v fuel nodes idx hg]
    | some n =>
      cases hp : n.parent with
      | none =>
        rw [backpropagate_succ_none v fuel nodes idx n hg hp, List.length_set]
      | some p =>
        rw [backpropagate_succ_parent v fuel nodes idx n p hg hp, ih,
          List.length_set]

theorem set_shape (nodes : List MCTSNode) (idx : Nat) (n : MCTSNode)
    (hg : nodes.get? idx = some n) (a : MCTSNode)
    (hpa : a.parent = n.parent) (hca : a.children = n.children) (j : Nat) :
    ((nodes.set idx a).getD j default).parent
        = (nodes.getD j default).parent ∧
    ((nodes.set idx a).getD j default).children
        = (nodes.getD j default).children := by
  have hidx : idx < nodes.length := lt_length_of_get?_eq_some hg
  have hn : nodes.getD idx default = n := getD_of_get?_eq_some hg
  by_cases h : idx = j
  · subst h
    rw [getD_set_self _ _ _ hidx, hn]
    exact ⟨hpa, hca⟩
  · rw [getD_set_ne _ _ _ _ h]
    exact ⟨rfl, rfl⟩

theorem backpropagate_shape (v : ℚ) :
    ∀ (fuel : Nat) (nodes : List MCTSNode) (idx j : Nat),
      ((backpropagate v fuel nodes idx).getD j default).parent
          = (nodes.getD j default).parent ∧
      ((backpropagate v fuel nodes idx).getD j default).children
          = (nodes.getD j default).children := by
  intro fuel
  induction fuel with
  | zero => intro nodes idx j; exact ⟨rfl, rfl⟩
  | succ fuel ih =>
    intro nodes idx j
    cases hg : nodes.get? idx with
    | none =>
      rw [backpropagate_get_none v fuel nodes idx hg]
      exact ⟨rfl, rfl⟩
    | some n =>
      have hset := set_shape nodes idx n hg
        { n with visits := n.visits + 1, value := n.value + v } rfl rfl j
      cases hp : n.parent with
      | none =>
        rw [backpropagate_succ_none v fuel nodes idx n hg hp]
        exact hset
      | some p =>
        rw [backpropagate_succ_parent v fuel nodes idx n p hg hp]
        obtain ⟨i1, i2⟩ := ih
          (nodes.set idx { n with visits := n.visits + 1, value := n.value + v })
          p j
        exact ⟨by rw [i1, hset.1], by rw [i2, hset.2]⟩

theorem arenaWf_backpropagate (v : ℚ) (fuel : Nat) (nodes : List MCTSNode)
    (idx : Nat) (hwf : ArenaWf nodes) :
    ArenaWf (backpropagate v fuel nodes idx) := by
  obtain ⟨h1, h2, h3, h4, h5⟩ := hwf
  have hl := backpropagate_length v fuel nodes idx
  refine ⟨by rw [hl]; exact h1, ?_, ?_, ?_, ?_⟩
  · rw [(backpropagate_shape v fuel nodes idx 0).1]
    exact h2
  · intro j hj p hp
    rw [hl] at hj
    rw [(backpropagate_shape v fuel nodes idx j).1] at hp
    exact h3 j hj p hp
  · intro j hj hj0
    rw [hl] at hj
    rw [(backpropagate_shape v fuel nodes idx j).1]
    exact h4 j hj hj0
  · intro j hj c hc
    rw [hl] at hj
    rw [hl]
    rw [(backpropagate_shape v fuel nodes idx j).2] at hc
    exact h5 j hj c hc

theorem backpropagate_root_visits (v : ℚ) :
    ∀ (fuel : Nat) (idx : Nat) (nodes : List MCTSNode),
      ArenaWf nodes → idx < nodes.length → idx < fuel →
      ((backpropagate v fuel nodes idx).getD 0 default).visits
        = (nodes.getD 0 default).visits + 1 := by
  intro fuel
  induction fuel with
  | zero =>
    intro idx nodes _ _ hfuel
    exact absurd hfuel (Nat.not_lt_zero idx)
  | succ fuel ih =>
    intro idx nodes hwf hlen hfuel
    have hg : nodes.get? idx = some (nodes.getD idx default) :=
      get?_eq_some_getD nodes idx hlen
    cases hp : (nodes.getD idx default).parent with
    | none =>
      have hidx0 : idx = 0 := by
        by_contra hne
        exact hwf.2.2.2.1 idx hlen (Nat.pos_of_ne_zero hne) hp
      rw [backpropagate_succ_none v fuel nodes idx (nodes.getD idx default)
        hg hp]
      subst hidx0
      rw [getD_set_self _ _ _ hlen]
    | some p =>
      have hpi : p < idx := hwf.2.2.1 idx hlen p hp
      rw [backpropagate_succ_parent v fuel nodes idx (nodes.getD idx default)
        p hg hp]
      have hwf2 : ArenaWf (nodes.set idx
          ⟨(nodes.getD idx default).state, (nodes.getD idx default).parent,
           (nodes.getD idx default).children,
           (nodes.getD idx default).visits + 1,
           (nodes.getD idx default).value + v⟩) :=
        arenaWf_set_same_shape nodes idx _ hlen rfl rfl
          ⟨hwf.1, hwf.2.1, hwf.2.2.1, hwf.2.2.2.1, hwf.2.2.2.2⟩
      have hlen2 : p < (nodes.set idx
          (⟨(nodes.getD idx default).state, (nodes.getD idx default).parent,
            (nodes.getD idx default).children,
            (nodes.getD idx default).visits + 1,
            (nodes.getD idx default).value + v⟩ : MCTSNode)).length := by
        rw [List.length_set]
        omega
      rw [ih p _ hwf2 hlen2 (by omega)]
      rw [getD_set_ne _ _ _ _ (by omega : idx ≠ 0)]

theorem expandStep_eq (pst : DialogueState) (idx : Nat)
    (nodes : List MCTSNode) (a : String) (hidx : idx < nodes.length) :
    expandStep pst idx nodes a =
      (nodes ++ [(⟨applyAction pst a, some idx, [], 0, 0⟩ : MCTSNode)]).set idx
        ⟨(nodes.getD idx default).state, (nodes.getD idx default).parent,
         (nodes.getD idx default).children ++ [nodes.length],
         (nodes.getD idx default).visits, (nodes.getD idx default).value⟩ := by
  simp only [expandStep, pushChild]
  rw [List.get?_eq_getElem?, List.getElem?_append_left hidx,
    ← List.get?_eq_getElem?, get?_eq_some_getD nodes idx hidx]

theorem expandStep_props (pst : DialogueState) (idx : Nat)
    (nodes : List MCTSNode) (a : String)
    (hwf : ArenaWf nodes) (hidx : idx < nodes.length) :
    ArenaWf (expandStep pst idx nodes a) ∧
    nodes.length < (expandStep pst idx nodes a).length ∧
    ((expandStep pst idx nodes a).getD 0 default).visits
      = (nodes.getD 0 default).visits := by
  obtain ⟨h1, h2, h3, h4, h5⟩ := hwf
  rw [expandStep_eq pst idx nodes a hidx]
  have hLlen : (nodes ++ [(⟨applyAction pst a, some idx, [], 0, 0⟩ :
      MCTSNode)]).length = nodes.length + 1 := by
    simp
  have hRlen : ((nodes ++ [(⟨applyAction pst a, some idx, [], 0, 0⟩ :
      MCTSNode)]).set idx
        ⟨(nodes.getD idx default).state, (nodes.getD idx default).parent,
         (nodes.getD idx default).children ++ [nodes.length],
         (nodes.getD idx default).visits,
         (nodes.getD idx default).value⟩).length = nodes.length + 1 := by
    rw [List.length_set, hLlen]
  have hidxL : idx < (nodes ++ [(⟨applyAction pst a, some idx, [], 0, 0⟩ :
      MCTSNode)]).length := by
    rw [hLlen]
    omega
  have hRidx : ((nodes ++ [(⟨applyAction pst a, some idx, [], 0, 0⟩ :
      MCTSNode)]).set idx
        ⟨(nodes.getD idx default).state, (nodes.getD idx default).parent,
         (nodes.getD idx default).children ++ [nodes.length],
         (nodes.getD idx default).visits,
         (nodes.getD idx default).value⟩).getD idx default =
      ⟨(nodes.getD idx default).state, (nodes.getD idx default).parent,
       (nodes.getD idx default).children ++ [nodes.length],
       (nodes.getD idx default).visits, (nodes.getD idx default).value⟩ :=
    getD_set_self _ _ _ hidxL
  have hRne : ∀ j, idx ≠ j →
      ((nodes ++ [(⟨applyAction pst a, some idx, [], 0, 0⟩ :
        MCTSNode)]).set idx
          ⟨(nodes.getD idx default).state, (nodes.getD idx default).parent,
           (nodes.getD idx default).children ++ [nodes.length],
           (nodes.getD idx default).visits,
           (nodes.getD idx default).value⟩).getD j default =
        (nodes ++ [(⟨applyAction pst a, some idx, [], 0, 0⟩ :
          MCTSNode)]).getD j default :=
    fun j hj => getD_set_ne _ _ _ _ hj
  have hLold : ∀ j, j < nodes.length →
      (nodes ++ [(⟨applyAction pst a, some idx, [], 0, 0⟩ :
        MCTSNode)]).getD j default = nodes.getD j default :=
    fun j hj => getD_append_left _ _ _ hj
  have hLnew : (nodes ++ [(⟨applyAction pst a, some idx, [], 0, 0⟩ :
      MCTSNode)]).getD nodes.length default =
      ⟨applyAction pst a, some idx, [], 0, 0⟩ :=
    getD_append_self _ _
  refine ⟨⟨by omega, ?_, ?_, ?_, ?_⟩, by omega, ?_⟩
  · by_cases h : idx = 0
    · subst h
      rw [hRidx]
      exact h2
    · rw [hRne 0 h, hLold 0 h1]
      exact h2
  · intro j hj p hpj
    rw [hRlen] at hj
    by_cases hjn : j = nodes.length
    · subst hjn
      rw [hRne nodes.length (by omega), hLnew] at hpj
      have : idx = p := by
        have := Option.some.inj hpj
        omega
      omega
    · have hjlt : j < nodes.length := by omega
      by_cases h : idx = j
      · subst h
        rw [hRidx] at hpj
        exact h3 idx hjlt p hpj
      · rw [hRne j h, hLold j hjlt] at hpj
        exact h3 j hjlt p hpj
  · intro j hj hj0
    rw [hRlen] at hj
    by_cases hjn : j = nodes.length
    · subst hjn
      rw [hRne nodes.length (by omega), hLnew]
      intro hcon
      exact Option.noConfusion hcon
    · have hjlt : j < nodes.length := by omega
      by_cases h : idx = j
      · subst h
        rw [hRidx]
        exact h4 idx hjlt hj0
      · rw [hRne j h, hLold j hjlt]
        exact h4 j hjlt hj0
  · intro j hj c hcj
    rw [hRlen] at hj
    rw [hRlen]
    by_cases hjn : j = nodes.length
    · subst hjn
      rw [hRne nodes.length (by omega), hLnew] at hcj
      exact absurd hcj (List.not_mem_nil c)
    · have hjlt : j < nodes.length := by omega
      by_cases h : idx = j
      · subst h
        rw [hRidx] at hcj
        rcases List.mem_append.1 hcj with hm | hm
        · have := h5 idx hjlt c hm
          omega
        · simp at hm
          omega
      · rw [hRne j h, hLold j hjlt] at hcj
        have := h5 j hjlt c hcj
        omega
  · by_cases h : idx = 0
    · subst h
      rw [hRidx]
    · rw [hRne 0 h, hLold 0 h1]

theorem expandFold_props (pst : DialogueState) (idx : Nat) :
    ∀ (acts : List String) (nodes : List MCTSNode),
      ArenaWf nodes → idx < nodes.length →
      ArenaWf (acts.foldl (expandStep pst idx) nodes) ∧
      nodes.length ≤ (acts.foldl (expandStep pst idx) nodes).length ∧
      ((acts.foldl (expandStep pst idx) nodes).getD 0 default).visits
        = (nodes.getD 0 default).visits := by
  intro acts
  induction acts with
  | nil => intro nodes hwf _; exact ⟨hwf, le_rfl, rfl⟩
  | cons a rest ih =>
    intro nodes hwf hidx
    obtain ⟨w1, w2, w3⟩ := expandStep_props pst idx nodes a hwf hidx
    obtain ⟨r1, r2, r3⟩ := ih (expandStep pst idx nodes a) w1
      (lt_of_lt_of_le hidx (le_of_lt w2))
    exact ⟨r1, le_trans (le_of_lt w2) r2,
      by rw [List.foldl_cons, r3, w3]⟩

theorem mctsExpand_props (cfg : MCTSConfig) (oracle : Nat → Nat) (k : Nat)
    (nodes : List MCTSNode) (idx : Nat)
    (hwf : ArenaWf nodes) (hidx : idx < nodes.length) :
    ArenaWf (mctsExpand cfg nodes idx oracle k).1 ∧
    (mctsExpand cfg nodes idx oracle k).2.1 <
      (mctsExpand cfg nodes idx oracle k).1.length ∧
    ((mctsExpand cfg nodes idx oracle k).1.getD 0 default).visits
      = (nodes.getD 0 default).visits := by
  obtain ⟨f1, f2, f3⟩ := expandFold_props (nodes.getD idx default).state idx
    (generateActions cfg.num_actions) nodes hwf hidx
  have hidx2 : idx < ((generateActions cfg.num_actions).foldl
      (expandStep (nodes.getD idx default).state idx) nodes).length :=
    lt_of_lt_of_le hidx f2
  cases hch : (((generateActions cfg.num_actions).foldl
      (expandStep (nodes.getD idx default).state idx) nodes).getD idx
        default).children with
  | nil =>
    have he : mctsExpand cfg nodes idx oracle k =
        ((generateActions cfg.num_actions).foldl
          (expandStep (nodes.getD idx default).state idx) nodes, idx, k) := by
      simp only [mctsExpand]
      rw [hch]
    rw [he]
    exact ⟨f1, hidx2, f3⟩
  | cons c cs =>
    have he : mctsExpand cfg nodes idx oracle k =
        ((generateActions cfg.num_actions).foldl
          (expandStep (nodes.getD idx default).state idx) nodes,
         (c :: cs).getD (oracle k % (c :: cs).length) 0, k + 1) := by
      simp only [mctsExpand]
      rw [hch]
    rw [he]
    refine ⟨f1, ?_, f3⟩
    have hmem : (c :: cs).getD (oracle k % (c :: cs).length) 0 ∈ c :: cs :=
      natList_getD_mem (c :: cs) _ (Nat.mod_lt _ (by simp))
    have hmem2 : (c :: cs).getD (oracle k % (c :: cs).length) 0 ∈
        (((generateActions cfg.num_actions).foldl
          (expandStep (nodes.getD idx default).state idx) nodes).getD idx
            default).children := by
      rw [hch]
      exact hmem
    exact f1.2.2.2.2 idx hidx2 _ hmem2

theorem selectGo_lt (ops : FloatOps) (nodes : List MCTSNode) (c pv : ℚ)
    (len : Nat) :
    ∀ (cs : List Nat) (bi : Nat) (best : Option ℚ),
      bi < len → (∀ x ∈ cs, x < len) →
      selectGo ops nodes c pv cs bi best < len := by
  intro cs
  induction cs with
  | nil => intro bi best hbi _; exact hbi
  | cons ci rest ih =>
    intro bi best hbi hall
    simp only [selectGo]
    cases best with
    | none =>
      exact ih ci _ (hall ci (List.mem_cons_self ci rest))
        (fun x hx => hall x (List.mem_cons_of_mem ci hx))
    | some b =>
      show (if b < ucbScore ops c pv (nodes.getD ci default) then
          selectGo ops nodes c pv rest ci
            (some (ucbScore ops c pv (nodes.getD ci default)))
        else selectGo ops nodes c pv rest bi (some b)) < len
      by_cases hlt : b < ucbScore ops c pv (nodes.getD ci default)
      · rw [if_pos hlt]
        exact ih ci _ (hall ci (List.mem_cons_self ci rest))
          (fun x hx => hall x (List.mem_cons_of_mem ci hx))
      · rw [if_neg hlt]
        exact ih bi _ hbi (fun x hx => hall x (List.mem_cons_of_mem ci hx))

theorem mctsSelect_lt (ops : FloatOps) (cfg : MCTSConfig)
    (nodes : List MCTSNode) (idx : Nat) (hwf : ArenaWf nodes)
    (hidx : idx < nodes.length) :
    mctsSelect ops cfg nodes idx < nodes.length := by
  have h5 := hwf.2.2.2.2
  simp only [mctsSelect]
  cases hch : (nodes.getD idx default).children with
  | nil => exact hidx
  | cons c0 cs =>
    have hmem : ∀ x ∈ c0 :: cs, x < nodes.length := by
      intro x hx
      refine h5 idx hidx x ?_
      rw [hch]
      exact hx
    exact selectGo_lt ops nodes cfg.exploration_weight _ nodes.length
      (c0 :: cs) c0 none (hmem c0 (List.mem_cons_self c0 cs)) hmem

theorem descend_lt (ops : FloatOps) (cfg : MCTSConfig)
    (nodes : List MCTSNode) (hwf : ArenaWf nodes) :
    ∀ (fuel idx : Nat), idx < nodes.length →
      descend ops cfg nodes fuel idx < nodes.length := by
  intro fuel
  induction fuel with
  | zero => intro idx h; exact h
  | succ fuel ih =>
    intro idx h
    simp only [descend]
    cases hch : (nodes.getD idx default).children with
    | nil => exact h
    | cons _ _ => exact ih _ (mctsSelect_lt ops cfg nodes idx hwf h)

theorem mctsIter_wf_visits (ops : FloatOps) (cfg : MCTSConfig)
    (oracle : Nat → Nat) (st : List MCTSNode × Nat) (hwf : ArenaWf st.1) :
    ArenaWf (mctsIter ops cfg oracle st).1 ∧
    ((mctsIter ops cfg oracle st).1.getD 0 default).visits
      = (st.1.getD 0 default).visits + 1 := by
  have hpos : 0 < st.1.length := hwf.1
  have hidx0 : descend ops cfg st.1 st.1.length 0 < st.1.length :=
    descend_lt ops cfg st.1 hwf st.1.length 0 hpos
  set idx0 := descend ops cfg st.1 st.1.length 0 with hidx0def
  set next := if isTerminal cfg (st.1.getD idx0 default).state
      then (st.1, idx0, st.2)
      else mctsExpand cfg st.1 idx0 oracle st.2 with hnextdef
  have hnext : ArenaWf next.1 ∧ next.2.1 < next.1.length ∧
      (next.1.getD 0 default).visits = (st.1.getD 0 default).visits := by
    by_cases ht : isTerminal cfg (st.1.getD idx0 default).state
    · rw [hnextdef, if_pos ht]
      exact ⟨hwf, hidx0, rfl⟩
    · rw [hnextdef, if_neg ht]
      exact mctsExpand_props cfg oracle st.2 st.1 idx0 hwf hidx0
  have hres : mctsIter ops cfg oracle st =
      (backpropagate (mctsSimulate cfg next.1 next.2.1 oracle next.2.2).1
         next.1.length next.1 next.2.1,
       (mctsSimulate cfg next.1 next.2.1 oracle next.2.2).2) := rfl
  rw [hres]
  exact ⟨arenaWf_backpropagate _ _ _ _ hnext.1,
    by
      rw [backpropagate_root_visits _ _ _ _ hnext.1 hnext.2.1 hnext.2.1,
        hnext.2.2]⟩

theorem mctsFold_wf_visits (ops : FloatOps) (cfg : MCTSConfig)
    (oracle : Nat → Nat) :
    ∀ (l : List Nat) (st : List MCTSNode × Nat), ArenaWf st.1 →
      ArenaWf ((l.foldl (fun st _ => mctsIter ops cfg oracle st) st).1) ∧
      ((l.foldl (fun st _ => mctsIter ops cfg oracle st) st).1.getD 0
          default).visits
        = (st.1.getD 0 default).visits + l.length := by
  intro l
  induction l with
  | nil => intro st h; exact ⟨h, by simp⟩
  | cons x rest ih =>
    intro st h
    obtain ⟨w1, w2⟩ := mctsIter_wf_visits ops cfg oracle st h
    obtain ⟨r1, r2⟩ := ih (mctsIter ops cfg oracle st) w1
    refine ⟨r1, ?_⟩
    rw [List.foldl_cons, r2, w2, List.length_cons]
    omega

theorem arenaWf_init (s : DialogueState) :
    ArenaWf [⟨s, none, [], 0, 0⟩] := by
  refine ⟨by simp, rfl, ?_, ?_, ?_⟩
  · intro i hi p hp
    simp at hi
    subst hi
    exact Option.noConfusion hp
  · intro i hi h0
    simp at hi
    omega
  · intro i hi c hc
    simp at hi
    subst hi
    simp at hc

/-- C3: on a fresh engine (`MCTS::new` leaves the arena empty, so
`search` installs the initial state as root node 0), after the
`num_simulations` iterations of `search` the root's visit count equals
`num_simulations` exactly: every iteration backpropagates from the
simulated node along the strictly-decreasing parent chain to the root,
adding exactly one visit to the root — for every choice of config,
float semantics and randomness. -/
theorem mcts_root_visit_count (ops : FloatOps) (cfg : MCTSConfig)
    (oracle : Nat → Nat) (initialState : DialogueState) :
    ((mctsRunNodes ops cfg oracle initialState).getD 0 default).visits
      = cfg.num_simulations := by
  have h := mctsFold_wf_visits ops cfg oracle
    (List.range cfg.num_simulations)
    ([⟨initialState, none, [], 0, 0⟩], 0) (arenaWf_init initialState)
  have h2 := h.2
  rw [List.length_range] at h2
  simpa [mctsRunNodes] using h2

/-! ## C4 — MCTS best-child selection -/

theorem maxByVisitsLast_spec (f : Nat → Nat) (c0 : Nat) (cs : List Nat)
    (ps : List (Nat × Nat))
    (hps : ps = (c0 :: cs).map (fun ci => (ci, f ci))) :
    ∃ c l1 l2, c0 :: cs = l1 ++ c :: l2 ∧
      maxByVisitsLast ps = some (c, f c) ∧
      (∀ d ∈ c0 :: cs, f d ≤ f c) ∧
      (∀ d ∈ l2, f d < f c) := by
  have hmap : ps = (c0, f c0) :: cs.map (fun ci => (ci, f ci)) := by
    rw [hps]
    rfl
  have hmax : maxByVisitsLast ps =
      some ((cs.map (fun ci => (ci, f ci))).foldl
        (fun acc y => if acc.2 ≤ y.2 then y else acc) (c0, f c0)) := by
    rw [hmap]
    rfl
  obtain ⟨l1p, l2p, heq, hstrict⟩ :=
    maxByFold_last (c0, f c0) (cs.map (fun ci => (ci, f ci)))
  have heq2 : (c0 :: cs).map (fun ci => (ci, f ci)) =
      l1p ++ ((cs.map (fun ci => (ci, f ci))).foldl
        (fun acc y => if acc.2 ≤ y.2 then y else acc) (c0, f c0)) :: l2p := by
    rw [List.map_cons]
    exact heq
  obtain ⟨la, lb, hsplit0, hm1, hm2⟩ := List.map_eq_append_iff.1 heq2
  obtain ⟨c, l2, hsplit1, hc, hm3⟩ := List.map_eq_cons_iff.1 hm2
  refine ⟨c, la, l2, by rw [hsplit0, hsplit1], ?_, ?_, ?_⟩
  · rw [hmax, ← hc]
  · intro d hd
    have hmem : (d, f d) ∈ (c0, f c0) :: cs.map (fun ci => (ci, f ci)) := by
      have := List.mem_map_of_mem (fun ci => (ci, f ci)) hd
      simpa using this
    have hz := maxByFold_ge (c0, f c0) (cs.map (fun ci => (ci, f ci)))
      (d, f d) hmem
    rw [← hc] at hz
    exact hz
  · intro d hd
    have hmem : (d, f d) ∈ l2p := by
      rw [← hm3]
      exact List.mem_map_of_mem _ hd
    have hz := hstrict (d, f d) hmem
    rw [← hc] at hz
    exact hz

/-- C4 (amended): when the search's root has children, the returned
state is that of a root child whose visit count is maximal — but ties
are broken in favour of the LAST child in the root's (creation-ordered)
child list, not the first-created one: `Iterator::max_by_key` keeps the
right argument of `cmp::max_by` on equality, so every child after the
returned one has strictly fewer visits. -/
theorem mcts_search_returns_last_max_visited (ops : FloatOps)
    (cfg : MCTSConfig) (oracle : Nat → Nat) (s0 : DialogueState)
    (hne : ((mctsRunNodes ops cfg oracle s0).getD 0 default).children ≠ []) :
    ∃ c l1 l2,
      ((mctsRunNodes ops cfg oracle s0).getD 0 default).children
        = l1 ++ c :: l2 ∧
      mctsSearch ops cfg oracle s0 =
        ((mctsRunNodes ops cfg oracle s0).getD c default).state ∧
      (∀ d ∈ ((mctsRunNodes ops cfg oracle s0).getD 0 default).children,
        ((mctsRunNodes ops cfg oracle s0).getD d default).visits ≤
          ((mctsRunNodes ops cfg oracle s0).getD c default).visits) ∧
      (∀ d ∈ l2,
        ((mctsRunNodes ops cfg oracle s0).getD d default).visits <
          ((mctsRunNodes ops cfg oracle s0).getD c default).visits) := by
  obtain ⟨c0, cs, hcons⟩ : ∃ c0 cs,
      ((mctsRunNodes ops cfg oracle s0).getD 0 default).children
        = c0 :: cs := by
    cases hc : ((mctsRunNodes ops cfg oracle s0).getD 0 default).children with
    | nil => exact absurd hc hne
    | cons a l => exact ⟨a, l, rfl⟩
  have hps : ((mctsRunNodes ops cfg oracle s0).getD 0 default).children.map
      (fun ci => (ci, ((mctsRunNodes ops cfg oracle s0).getD ci
        default).visits)) =
      (c0 :: cs).map (fun ci =>
        (ci, (fun d => ((mctsRunNodes ops cfg oracle s0).getD d
          default).visits) ci)) := by
    rw [hcons]
  obtain ⟨c, l1, l2, hsplit, hmax, hge, hlt⟩ := maxByVisitsLast_spec
    (fun d => ((mctsRunNodes ops cfg oracle s0).getD d default).visits)
    c0 cs _ hps
  refine ⟨c, l1, l2, by rw [hcons]; exact hsplit, ?_, ?_, ?_⟩
  · simp only [mctsSearch]
    rw [hmax]
  · intro d hd
    refine hge d ?_
    rw [← hcons]
    exact hd
  · intro d hd
    exact hlt d hd

/-- C4 witness: the amended theorem applied to a one-simulation run
(whose arena is kernel-computable: one iteration never compares UCB
scores), where the root ends with children 1 and 2. -/
theorem mcts_search_returns_last_max_visited_witness :
    (((mctsRunNodes cexOps wMctsCfg cexOr cexS0).getD 0 default).children
      ≠ []) ∧
    (∃ c l1 l2,
      ((mctsRunNodes cexOps wMctsCfg cexOr cexS0).getD 0 default).children
        = l1 ++ c :: l2 ∧
      mctsSearch cexOps wMctsCfg cexOr cexS0 =
        ((mctsRunNodes cexOps wMctsCfg cexOr cexS0).getD c default).state ∧
      (∀ d ∈ ((mctsRunNodes cexOps wMctsCfg cexOr cexS0).getD 0
          default).children,
        ((mctsRunNodes cexOps wMctsCfg cexOr cexS0).getD d default).visits ≤
          ((mctsRunNodes cexOps wMctsCfg cexOr cexS0).getD c
            default).visits) ∧
      (∀ d ∈ l2,
        ((mctsRunNodes cexOps wMctsCfg cexOr cexS0).getD d default).visits <
          ((mctsRunNodes cexOps wMctsCfg cexOr cexS0).getD c
            default).visits)) :=
  ⟨by decide,
    mcts_search_returns_last_max_visited cexOps wMctsCfg cexOr cexS0
      (by decide)⟩

/-- C4 counterexample: after the two-simulation run the root's children
1 and 2 both have exactly one visit — an exact tie — yet `search`
returns the state of child 2, the LAST-created child, and that state
differs from first-created child 1's state; the claimed first-in-wins
tie-break is violated. -/
theorem mcts_search_tie_last_cex :
    ((mctsRunNodes cexOps cexMctsCfg cexOr cexS0).getD 0 default).children
      = [1, 2] ∧
    ((mctsRunNodes cexOps cexMctsCfg cexOr cexS0).getD 1 default).visits
      = 1 ∧
    ((mctsRunNodes cexOps cexMctsCfg cexOr cexS0).getD 2 default).visits
      = 1 ∧
    mctsSearch cexOps cexMctsCfg cexOr cexS0 =
      ((mctsRunNodes cexOps cexMctsCfg cexOr cexS0).getD 2 default).state ∧
    ((mctsRunNodes cexOps cexMctsCfg cexOr cexS0).getD 2 default).state ≠
      ((mctsRunNodes cexOps cexMctsCfg cexOr cexS0).getD 1 default).state := by
  have hsel : mctsSelect cexOps cexMctsCfg cexMctsA1 0 = 2 := by
    have hstep1 : mctsSelect cexOps cexMctsCfg cexMctsA1 0 =
        selectGo cexOps cexMctsA1 cexMctsCfg.exploration_weight
          ((1 : Nat) : ℚ) [1, 2] 1 none := rfl
    have hstep2 : selectGo cexOps cexMctsA1 cexMctsCfg.exploration_weight
        ((1 : Nat) : ℚ) [1, 2] 1 none =
        selectGo cexOps cexMctsA1 cexMctsCfg.exploration_weight
          ((1 : Nat) : ℚ) [2] 1
          (some (ucbScore cexOps cexMctsCfg.exploration_weight
            ((1 : Nat) : ℚ) (cexMctsA1.getD 1 default))) := rfl
    have he1 : cexMctsA1.getD 1 default =
        ⟨⟨"sys", [⟨"assistant", "action_0"⟩],
          "next_query_based_on_action_0"⟩, some 0, [], 1, 0 + 1/2⟩ := rfl
    have he2 : cexMctsA1.getD 2 default =
        ⟨⟨"sys", [⟨"assistant", "action_1"⟩],
          "next_query_based_on_action_1"⟩, some 0, [], 0, 0⟩ := rfl
    have hcmp : ucbScore cexOps cexMctsCfg.exploration_weight
        ((1 : Nat) : ℚ) (cexMctsA1.getD 1 default) <
        ucbScore cexOps cexMctsCfg.exploration_weight
          ((1 : Nat) : ℚ) (cexMctsA1.getD 2 default) := by
      rw [he1, he2]
      norm_num [ucbScore, cexOps, cexMctsCfg]
    have hstep3 : selectGo cexOps cexMctsA1 cexMctsCfg.exploration_weight
        ((1 : Nat) : ℚ) [2] 1
        (some (ucbScore cexOps cexMctsCfg.exploration_weight
          ((1 : Nat) : ℚ) (cexMctsA1.getD 1 default))) = 2 := by
      simp only [selectGo]
      rw [if_pos hcmp]
    rw [hstep1, hstep2, hstep3]
  have hdesc : descend cexOps cexMctsCfg cexMctsA1 cexMctsA1.length 0
      = 2 := by
    have hd1 : descend cexOps cexMctsCfg cexMctsA1 cexMctsA1.length 0 =
        descend cexOps cexMctsCfg cexMctsA1 2
          (mctsSelect cexOps cexMctsCfg cexMctsA1 0) := rfl
    rw [hd1, hsel]
    rfl
  have h1 : mctsIter cexOps cexMctsCfg cexOr ([⟨cexS0, none, [], 0, 0⟩], 0)
      = (cexMctsA1, 2) := rfl
  have h2 : mctsIter cexOps cexMctsCfg cexOr (cexMctsA1, 2)
      = (cexMctsA2, 4) := by
    simp only [mctsIter]
    rw [hdesc]
    rfl
  have hrun : mctsRunNodes cexOps cexMctsCfg cexOr cexS0 = cexMctsA2 := by
    show (mctsIter cexOps cexMctsCfg cexOr
      (mctsIter cexOps cexMctsCfg cexOr
        ([⟨cexS0, none, [], 0, 0⟩], 0))).1 = cexMctsA2
    rw [h1, h2]
  have hsearch : mctsSearch cexOps cexMctsCfg cexOr cexS0 =
      ((mctsRunNodes cexOps cexMctsCfg cexOr cexS0).getD 2 default).state := by
    simp only [mctsSearch]
    rw [hrun]
    rfl
  refine ⟨?_, ?_, ?_, hsearch, ?_⟩
  · rw [hrun]
    rfl
  · rw [hrun]
    rfl
  · rw [hrun]
    rfl
  · rw [hrun]
    decide

end OptRs
